import Mathlib

set_option maxRecDepth 40000

/-!
Verification of the allenap-libtftp TFTP library.

This file gives a shallow embedding, in Lean, of the packet codec
(`src/packetreader.rs`, `src/packetwriter.rs`, `src/packet.rs`), the option
codec (`src/options.rs`) and the RRQ transfer engine (`src/rrq.rs`) of the
library, and proves properties of that embedding.

Modelling conventions:
- Octets and machine integers are `Nat` (with explicit bounds or `% 256`
  where overflow matters).
- Rust byte slices and UTF-8 strings are `List Nat` of octet values.
- Cursor types (`PacketReader`, `PacketWriter`) are records of the borrowed
  buffer and the cursor, and their methods are state-passing functions that
  return the possibly-updated state next to the `Result`, so that "the
  cursor is unchanged when the call fails" is a statable fact.
- The I/O of the RRQ engine (file reads / socket receives) is modelled by
  oracle streams of events; the engine is a function from those streams to
  the list of datagrams it sends and a termination outcome.
-/

/-- The octet values of an ASCII string literal (code point of each char). -/
def strBytes (s : String) : List Nat := s.toList.map Char.toNat

/-- Lowercase a single octet if it is an ASCII uppercase letter. -/
def lowerByte (b : Nat) : Nat := if 65 ≤ b ∧ b ≤ 90 then b + 32 else b

/-- ASCII-lowercase a byte string.  Models Rust `str::to_lowercase` as used
in `options.rs` (the source uses Unicode lowercasing; this model is exact on
ASCII input, which is the only case the option-name comparisons exercise). -/
def asciiLowercase (s : List Nat) : List Nat := s.map lowerByte

/-- Model of Rust `eq_ignore_ascii_case` on byte slices. -/
def eqIgnoreAsciiCase (a b : List Nat) : Bool :=
  asciiLowercase a == asciiLowercase b

/-- A digit octet, `'0'..'9'`. -/
def isDigitByte (b : Nat) : Bool := 48 ≤ b && b ≤ 57

/-- Fuel-driven worker for `natToDec`; structural recursion on the fuel so
that concrete values compute by kernel reduction.  The fuel never runs out
when it starts at least as large as the argument. -/
def natToDecAux : Nat → Nat → List Nat
  | 0, n => [48 + n]
  | fuel + 1, n =>
    if n < 10 then [48 + n] else natToDecAux fuel (n / 10) ++ [48 + n % 10]

/-- Decimal representation of a natural number as octets; models Rust
`to_string` on the unsigned integer types. -/
def natToDec (n : Nat) : List Nat := natToDecAux n n

/-- The error kinds of Rust `from_str` on unsigned integers
(`IntErrorKind`), restricted to those reachable from decimal parsing. -/
inductive IntParseError where
  | empty
  | invalidDigit
  | posOverflow
deriving DecidableEq

deriving instance DecidableEq for Except

/-- The `Display` text of each `IntParseError`, as octets. -/
def intErrMsg : IntParseError → List Nat
  | .empty => strBytes "cannot parse integer from empty string"
  | .invalidDigit => strBytes "invalid digit found in string"
  | .posOverflow => strBytes "number too large to fit in target type"

/-- Value of a list of decimal digit octets. -/
def digitsVal (s : List Nat) : Nat := s.foldl (fun a b => a * 10 + (b - 48)) 0

/-- Model of Rust `from_str` for an unsigned integer type whose maximum
value is `max`: an optional leading `+`, then decimal digits; empty input,
a non-digit, and overflow give the three distinct error kinds. -/
def parseUInt (max : Nat) (s : List Nat) : Except IntParseError Nat :=
  match s with
  | [] => .error .empty
  | b :: rest =>
    let digits := if b = 43 then rest else b :: rest
    if digits = [] then .error .invalidDigit
    else if digits.all (fun d => isDigitByte d) then
      if digitsVal digits ≤ max then .ok (digitsVal digits)
      else .error .posOverflow
    else .error .invalidDigit

/-- Lowercase hexadecimal digit octet for a value below 16. -/
def hexDigit (n : Nat) : Nat := if n < 10 then 48 + n else 87 + n

/-- Fuel-driven worker for `hexBytes`. -/
def hexBytesAux : Nat → Nat → List Nat
  | 0, n => [hexDigit n]
  | fuel + 1, n =>
    if n < 16 then [hexDigit n] else hexBytesAux fuel (n / 16) ++ [hexDigit (n % 16)]

/-- Lowercase hexadecimal representation of a natural number as octets. -/
def hexBytes (n : Nat) : List Nat := hexBytesAux n n

/-- Escape of one octet under Rust `Debug` formatting of a string
(`escape_debug`); exact for the ASCII range, which is the only range the
claims exercise. -/
def escapeDebugByte (b : Nat) : List Nat :=
  if b = 34 then [92, 34]
  else if b = 92 then [92, 92]
  else if b = 9 then [92, 116]
  else if b = 10 then [92, 110]
  else if b = 13 then [92, 114]
  else if 32 ≤ b ∧ b ≤ 126 then [b]
  else [92, 117, 123] ++ hexBytes b ++ [125]

/-- Rust `Debug` formatting (`{:?}`-style) of a byte string: double quotes
around the escaped content. -/
def debugBytes (s : List Nat) : List Nat :=
  [34] ++ (s.map escapeDebugByte).flatten ++ [34]

/-- Is the octet a UTF-8 continuation byte (`0x80..0xBF`)? -/
def isContByte (b : Nat) : Bool := 128 ≤ b && b ≤ 191

/-- Allowed range of the second byte of a multi-byte UTF-8 sequence whose
first byte is `b0` (the special rows of the UTF-8 validation table). -/
def utf8SecondOk (b0 b1 : Nat) : Bool :=
  if b0 = 224 then 160 ≤ b1 && b1 ≤ 191
  else if b0 = 237 then 128 ≤ b1 && b1 ≤ 159
  else if b0 = 240 then 144 ≤ b1 && b1 ≤ 191
  else if b0 = 244 then 128 ≤ b1 && b1 ≤ 143
  else isContByte b1

/-- UTF-8 encoding of U+FFFD, the replacement character. -/
def replBytes : List Nat := [239, 191, 189]

/-- Model of Rust `String::from_utf8_lossy` on a byte string, expressed on
the UTF-8 re-encoding of the result: valid sequences are copied, each
maximal invalid subpart is replaced by U+FFFD, and an incomplete sequence at
the end of the input becomes a single U+FFFD.  On ASCII input this is the
identity. -/
def fromUtf8Lossy : List Nat → List Nat
  | [] => []
  | b :: rest =>
    if b < 128 then b :: fromUtf8Lossy rest
    else if 194 ≤ b ∧ b ≤ 223 then
      match rest with
      | [] => replBytes
      | b1 :: rest1 =>
        if isContByte b1 then b :: b1 :: fromUtf8Lossy rest1
        else replBytes ++ fromUtf8Lossy (b1 :: rest1)
    else if 224 ≤ b ∧ b ≤ 239 then
      match rest with
      | [] => replBytes
      | b1 :: rest1 =>
        if utf8SecondOk b b1 then
          match rest1 with
          | [] => replBytes
          | b2 :: rest2 =>
            if isContByte b2 then b :: b1 :: b2 :: fromUtf8Lossy rest2
            else replBytes ++ fromUtf8Lossy (b2 :: rest2)
        else replBytes ++ fromUtf8Lossy (b1 :: rest1)
    else if 240 ≤ b ∧ b ≤ 244 then
      match rest with
      | [] => replBytes
      | b1 :: rest1 =>
        if utf8SecondOk b b1 then
          match rest1 with
          | [] => replBytes
          | b2 :: rest2 =>
            if isContByte b2 then
              match rest2 with
              | [] => replBytes
              | b3 :: rest3 =>
                if isContByte b3 then b :: b1 :: b2 :: b3 :: fromUtf8Lossy rest3
                else replBytes ++ fromUtf8Lossy (b3 :: rest3)
            else replBytes ++ fromUtf8Lossy (b2 :: rest2)
        else replBytes ++ fromUtf8Lossy (b1 :: rest1)
    else replBytes ++ fromUtf8Lossy rest

/-! ## PacketReader (`src/packetreader.rs`)

A monotonic cursor over a borrowed octet buffer.  Methods take the reader
and return the `Result` together with the updated reader; the failure paths
of the source do not touch `pos`, so they return the reader unchanged. -/

/-- The error type of `packetreader.rs`. -/
inductive RdError where
  | NotEnoughData
  | StringNotTerminated
deriving DecidableEq

/-- The reader: a borrowed buffer and a cursor, as in `PacketReader`. -/
structure PacketReader where
  buf : List Nat
  pos : Nat
deriving DecidableEq

/-- `PacketReader::rem`: octets remaining after the cursor. -/
def PacketReader.rem (r : PacketReader) : Nat := r.buf.length - r.pos

/-- `PacketReader::take_u16`: consume two octets big-endian; fails with
`NotEnoughData`, leaving the cursor alone, when fewer than two remain. -/
def PacketReader.take_u16 (r : PacketReader) :
    Except RdError Nat × PacketReader :=
  if 2 ≤ r.rem then
    (.ok (256 * (r.buf.drop r.pos).getD 0 0 + (r.buf.drop r.pos).getD 1 0),
      { r with pos := r.pos + 2 })
  else (.error .NotEnoughData, r)

/-- `PacketReader::take_string`: scan forward for the first zero octet,
return the octets before it decoded with `from_utf8_lossy`, and advance the
cursor past the zero; fails with `StringNotTerminated`, leaving the cursor
alone, when no zero octet remains. -/
def PacketReader.take_string (r : PacketReader) :
    Except RdError (List Nat) × PacketReader :=
  match (r.buf.drop r.pos).findIdx? (· == 0) with
  | some i =>
    (.ok (fromUtf8Lossy ((r.buf.drop r.pos).take i)), { r with pos := r.pos + i + 1 })
  | none => (.error .StringNotTerminated, r)

/-- `PacketReader::take_remaining`: the rest of the buffer; cursor to end. -/
def PacketReader.take_remaining (r : PacketReader) :
    Except RdError (List Nat) × PacketReader :=
  (.ok (r.buf.drop r.pos), { r with pos := r.buf.length })

/-! ## PacketWriter (`src/packetwriter.rs`) -/

/-- The error type of `packetwriter.rs`. -/
inductive WrError where
  | NotEnoughSpace
  | StringNotASCII
  | StringContainsNull
deriving DecidableEq

/-- The writer: a borrowed mutable buffer and a cursor, as in
`PacketWriter`. -/
structure PacketWriter where
  buf : List Nat
  pos : Nat
deriving DecidableEq

/-- Overwrite `buf` starting at `pos` with `bytes`, keeping the rest. -/
def writeAt (buf : List Nat) (pos : Nat) (bytes : List Nat) : List Nat :=
  buf.take pos ++ bytes ++ buf.drop (pos + bytes.length)

/-- `PacketWriter::rem`: octets of space remaining after the cursor. -/
def PacketWriter.rem (w : PacketWriter) : Nat := w.buf.length - w.pos

/-- `PacketWriter::put_u16`: write two octets big-endian; fails with
`NotEnoughSpace` when fewer than two remain. -/
def PacketWriter.put_u16 (w : PacketWriter) (v : Nat) :
    Except WrError Unit × PacketWriter :=
  if 2 ≤ w.rem then
    (.ok (), { buf := writeAt w.buf w.pos [v / 256 % 256, v % 256], pos := w.pos + 2 })
  else (.error .NotEnoughSpace, w)

/-- `PacketWriter::put_string`: reject a non-ASCII octet, then an embedded
zero octet; then require `pos + len < buf.len()` (one extra octet for the
terminator) and write the octets followed by a terminating zero. -/
def PacketWriter.put_string (w : PacketWriter) (value : List Nat) :
    Except WrError Unit × PacketWriter :=
  if value.all (fun b => b < 128) then
    if value.contains 0 then (.error .StringContainsNull, w)
    else if w.pos + value.length ≥ w.buf.length then (.error .NotEnoughSpace, w)
    else
      (.ok (),
        { buf := writeAt w.buf w.pos (value ++ [0]), pos := w.pos + value.length + 1 })
  else (.error .StringNotASCII, w)

/-- `PacketWriter::put_bytes`: bulk copy; fails with `NotEnoughSpace` when
`pos + len > buf.len()`; no terminator appended. -/
def PacketWriter.put_bytes (w : PacketWriter) (bytes : List Nat) :
    Except WrError Unit × PacketWriter :=
  if w.pos + bytes.length > w.buf.length then (.error .NotEnoughSpace, w)
  else (.ok (), { buf := writeAt w.buf w.pos bytes, pos := w.pos + bytes.length })

/-! ## Options codec (`src/options.rs`) -/

/-- TFTP transfer options (RFC 2347): the four optional slots.  The Rust
fields are `Option<u16>`, `Option<u8>`, `Option<u64>`, `Option<u16>`; bounds
appear as hypotheses where they matter. -/
structure Options where
  blksize : Option Nat
  timeout : Option Nat
  tsize : Option Nat
  windowsize : Option Nat
deriving DecidableEq

/-- `Options::new`: all slots empty. -/
def Options.new : Options := ⟨none, none, none, none⟩

/-- `Options::is_set`: is at least one slot set? -/
def Options.is_set (o : Options) : Bool :=
  o.blksize.isSome || o.timeout.isSome || o.tsize.isSome || o.windowsize.isSome

/-- The result of one step of `OptionStringIter::next`. -/
inductive OptionString where
  | Terminated (s : List Nat)
  | Unterminated (s : List Nat)
  | None
deriving DecidableEq

/-- `OptionStringIter::next` on iterator state `(buf, pos)`: the octets up
to the next zero (consuming it), else the non-empty unterminated tail, else
nothing. -/
def optIterNext (buf : List Nat) (pos : Nat) : OptionString × Nat :=
  match (buf.drop pos).findIdx? (· == 0) with
  | some i => (.Terminated ((buf.drop pos).take i), pos + i + 1)
  | none =>
    if buf.length > pos then (.Unterminated (buf.drop pos), buf.length)
    else (.None, pos)

/-- The `"Invalid <name> value <value:?>: <error>"` message produced by
`Options::parse_value`. -/
def invalidValueMsg (name value : List Nat) (e : IntParseError) : List Nat :=
  strBytes "Invalid " ++ name ++ strBytes " value " ++ debugBytes value ++
    strBytes ": " ++ intErrMsg e

/-- `Options::parse_option`: dispatch on the lowercased option name; a
recognized name parses its value into the option's integer type (`u16`,
`u8`, `u64`, `u16` respectively); an unrecognized name is ignored, as
advised in RFC 2347. -/
def Options.parse_option (o : Options) (name value : List Nat) :
    Except (List Nat) Options :=
  let lname := asciiLowercase name
  if lname = strBytes "blksize" then
    match parseUInt 65535 value with
    | .ok v => .ok { o with blksize := some v }
    | .error e => .error (invalidValueMsg (strBytes "blksize") value e)
  else if lname = strBytes "timeout" then
    match parseUInt 255 value with
    | .ok v => .ok { o with timeout := some v }
    | .error e => .error (invalidValueMsg (strBytes "timeout") value e)
  else if lname = strBytes "tsize" then
    match parseUInt (2 ^ 64 - 1) value with
    | .ok v => .ok { o with tsize := some v }
    | .error e => .error (invalidValueMsg (strBytes "tsize") value e)
  else if lname = strBytes "windowsize" then
    match parseUInt 65535 value with
    | .ok v => .ok { o with windowsize := some v }
    | .error e => .error (invalidValueMsg (strBytes "windowsize") value e)
  else .ok o

/-- The loop of `Options::parse`: pull a name token and a value token per
iteration, fold them into the accumulator, and stop at `None`; the three
ill-formed shapes give the three error strings of the source.  The fuel
argument only forces structural recursion; `Options.parse` supplies enough
fuel that it never runs out (each iteration advances the cursor by at least
two). -/
def optionsParseGo : Nat → List Nat → Nat → Options → Except (List Nat) Options
  | 0, _, _, o => .ok o
  | fuel + 1, buf, pos, o =>
    match optIterNext buf pos with
    | (.Terminated name, pos1) =>
      match optIterNext buf pos1 with
      | (.Terminated value, pos2) =>
        match Options.parse_option o (fromUtf8Lossy name) (fromUtf8Lossy value) with
        | .ok o' => optionsParseGo fuel buf pos2 o'
        | .error e => .error e
      | (.Unterminated value, _) =>
        .error (strBytes "Option " ++ fromUtf8Lossy name ++
          strBytes " has unterminated value " ++ fromUtf8Lossy value)
      | (.None, _) =>
        .error (strBytes "Option " ++ fromUtf8Lossy name ++
          strBytes " has no corresponding value")
    | (.Unterminated name, _) =>
      .error (strBytes "Option " ++ fromUtf8Lossy name ++ strBytes " is unterminated")
    | (.None, _) => .ok o

/-- `Options::parse`: run the token loop from the start of the buffer with
an empty accumulator.  Errors are strings. -/
def Options.parse (buf : List Nat) : Except (List Nat) Options :=
  optionsParseGo (buf.length + 1) buf 0 Options.new

/-- Sequence two writer steps, propagating the first failure: the shape of
Rust's `?` operator over `&mut`-threaded writer calls. -/
def wseq (r : Except WrError Unit × PacketWriter)
    (k : PacketWriter → Except WrError Unit × PacketWriter) :
    Except WrError Unit × PacketWriter :=
  match r with
  | (.ok _, w) => k w
  | (.error e, w) => (.error e, w)

/-- One `if let Some(x) = slot` block of `Options::write`: the name token
then the stringified value token. -/
def putOpt (name : List Nat) (v : Option Nat) (w : PacketWriter) :
    Except WrError Unit × PacketWriter :=
  match v with
  | none => (.ok (), w)
  | some x => wseq (w.put_string name) (fun w1 => w1.put_string (natToDec x))

/-- `Options::write`: present options in the fixed order blksize, timeout,
tsize, windowsize, each as a name token then a decimal value token. -/
def Options.write (o : Options) (w : PacketWriter) :
    Except WrError Unit × PacketWriter :=
  wseq (putOpt (strBytes "blksize") o.blksize w) (fun w1 =>
    wseq (putOpt (strBytes "timeout") o.timeout w1) (fun w2 =>
      wseq (putOpt (strBytes "tsize") o.tsize w2) (fun w3 =>
        putOpt (strBytes "windowsize") o.windowsize w3)))

/-! ## Packet codec (`src/packet.rs`) -/

/-- The packet-level error type (`packet::Error`). -/
inductive PkError where
  | InvalidOpCode (code : Nat)
  | InvalidTransferMode (mode : List Nat)
  | InvalidErrorCode (code : Nat)
  | InvalidOptions (msg : List Nat)
  | ReadFailure (e : RdError)
  | WriteFailure (e : WrError)
deriving DecidableEq

/-- The operation code that begins every TFTP packet. -/
inductive OpCode where
  | RRQ
  | WRQ
  | DATA
  | ACK
  | ERROR
  | OACK
deriving DecidableEq

/-- The wire value of each opcode (the enum discriminants 1..6). -/
def OpCode.toCode : OpCode → Nat
  | .RRQ => 1
  | .WRQ => 2
  | .DATA => 3
  | .ACK => 4
  | .ERROR => 5
  | .OACK => 6

/-- `OpCode::from`: recognize the values 1..6. -/
def OpCode.fromCode : Nat → Option OpCode
  | 1 => some .RRQ
  | 2 => some .WRQ
  | 3 => some .DATA
  | 4 => some .ACK
  | 5 => some .ERROR
  | 6 => some .OACK
  | _ => none

/-- The transfer mode to use. -/
inductive TransferMode where
  | NetASCII
  | Octet
deriving DecidableEq

/-- The token emitted by `TransferMode::write`. -/
def TransferMode.toBytes : TransferMode → List Nat
  | .NetASCII => strBytes "netascii"
  | .Octet => strBytes "octet"

/-- `TransferMode::parse`: case-insensitive match on the two tokens. -/
def TransferMode.parse (buffer : List Nat) : Option TransferMode :=
  if eqIgnoreAsciiCase buffer (strBytes "netascii") then some .NetASCII
  else if eqIgnoreAsciiCase buffer (strBytes "octet") then some .Octet
  else none

/-- The code in an `ERROR` packet (RFC 1350 plus `BadOptions`, RFC 2347). -/
inductive ErrorCode where
  | NotDefined
  | FileNotFound
  | AccessViolation
  | DiskFull
  | IllegalOperation
  | UnknownTransferId
  | FileAlreadyExists
  | NoSuchUser
  | BadOptions
deriving DecidableEq

/-- The wire value of each error code (the enum discriminants 0..8). -/
def ErrorCode.toCode : ErrorCode → Nat
  | .NotDefined => 0
  | .FileNotFound => 1
  | .AccessViolation => 2
  | .DiskFull => 3
  | .IllegalOperation => 4
  | .UnknownTransferId => 5
  | .FileAlreadyExists => 6
  | .NoSuchUser => 7
  | .BadOptions => 8

/-- `ErrorCode::from`: recognize the values 0..8. -/
def ErrorCode.fromCode : Nat → Option ErrorCode
  | 0 => some .NotDefined
  | 1 => some .FileNotFound
  | 2 => some .AccessViolation
  | 3 => some .DiskFull
  | 4 => some .IllegalOperation
  | 5 => some .UnknownTransferId
  | 6 => some .FileAlreadyExists
  | 7 => some .NoSuchUser
  | 8 => some .BadOptions
  | _ => none

/-- A packet of the Trivial File Transfer Protocol.  Filenames, data and
error messages are octet strings; block numbers are `u16` values. -/
inductive Packet where
  | Read (filename : List Nat) (mode : TransferMode) (options : Options)
  | Write (filename : List Nat) (mode : TransferMode) (options : Options)
  | Data (block : Nat) (data : List Nat)
  | Ack (block : Nat)
  | Error (code : ErrorCode) (message : List Nat)
  | OAck (options : Options)
deriving DecidableEq

/-- `Packet::opcode`. -/
def Packet.opcode : Packet → OpCode
  | .Read _ _ _ => .RRQ
  | .Write _ _ _ => .WRQ
  | .Data _ _ => .DATA
  | .Ack _ => .ACK
  | .Error _ _ => .ERROR
  | .OAck _ => .OACK

/-- `Options::read`: take the remaining octets and parse them; a parse
error surfaces as `InvalidOptions`. -/
def Options.read (r : PacketReader) : Except PkError Options × PacketReader :=
  match r.take_remaining with
  | (.ok buffer, r1) =>
    match Options.parse buffer with
    | .ok options => (.ok options, r1)
    | .error e => (.error (.InvalidOptions e), r1)
  | (.error e, r1) => (.error (.ReadFailure e), r1)

/-- `TransferMode::read`: take a string and match the mode token; an
unknown token surfaces as `InvalidTransferMode` carrying it. -/
def TransferMode.read (r : PacketReader) :
    Except PkError TransferMode × PacketReader :=
  match r.take_string with
  | (.ok mode, r1) =>
    match TransferMode.parse mode with
    | some txmode => (.ok txmode, r1)
    | none => (.error (.InvalidTransferMode mode), r1)
  | (.error e, r1) => (.error (.ReadFailure e), r1)

/-- `ErrorCode::read`: take a `u16` and recognize it; an unknown value
surfaces as `InvalidErrorCode`. -/
def ErrorCode.read (r : PacketReader) : Except PkError ErrorCode × PacketReader :=
  match r.take_u16 with
  | (.ok code, r1) =>
    match ErrorCode.fromCode code with
    | some errorcode => (.ok errorcode, r1)
    | none => (.error (.InvalidErrorCode code), r1)
  | (.error e, r1) => (.error (.ReadFailure e), r1)

/-- `Packet::parse`: read the opcode and decode the remainder per shape.
`Filename::read`, `BlockNum::read`, `Data::read` and `ErrorMessage::read`
are inlined as the reader call they wrap. -/
def Packet.parse (buffer : List Nat) : Except PkError Packet :=
  let r : PacketReader := ⟨buffer, 0⟩
  match r.take_u16 with
  | (.error e, _) => .error (.ReadFailure e)
  | (.ok code, r1) =>
    match OpCode.fromCode code with
    | none => .error (.InvalidOpCode code)
    | some .RRQ =>
      match r1.take_string with
      | (.error e, _) => .error (.ReadFailure e)
      | (.ok filename, r2) =>
        match TransferMode.read r2 with
        | (.error e, _) => .error e
        | (.ok mode, r3) =>
          match Options.read r3 with
          | (.error e, _) => .error e
          | (.ok options, _) => .ok (.Read filename mode options)
    | some .WRQ =>
      match r1.take_string with
      | (.error e, _) => .error (.ReadFailure e)
      | (.ok filename, r2) =>
        match TransferMode.read r2 with
        | (.error e, _) => .error e
        | (.ok mode, r3) =>
          match Options.read r3 with
          | (.error e, _) => .error e
          | (.ok options, _) => .ok (.Write filename mode options)
    | some .DATA =>
      match r1.take_u16 with
      | (.error e, _) => .error (.ReadFailure e)
      | (.ok block, r2) =>
        match r2.take_remaining with
        | (.error e, _) => .error (.ReadFailure e)
        | (.ok data, _) => .ok (.Data block data)
    | some .ACK =>
      match r1.take_u16 with
      | (.error e, _) => .error (.ReadFailure e)
      | (.ok block, _) => .ok (.Ack block)
    | some .ERROR =>
      match ErrorCode.read r1 with
      | (.error e, _) => .error e
      | (.ok code, r2) =>
        match r2.take_string with
        | (.error e, _) => .error (.ReadFailure e)
        | (.ok message, _) => .ok (.Error code message)
    | some .OACK =>
      match Options.read r1 with
      | (.error e, _) => .error e
      | (.ok options, _) => .ok (.OAck options)

/-- `Packet::write`: write the opcode, then the payload fields in RFC
order, into the given buffer; returns the final buffer contents and the
cursor (`buffer.pos()`).  A primitive failure propagates, wrapped in
`WriteFailure` by the `From` conversion. -/
def Packet.write (p : Packet) (buffer : List Nat) :
    Except PkError (List Nat × Nat) :=
  let w : PacketWriter := ⟨buffer, 0⟩
  match w.put_u16 p.opcode.toCode with
  | (.error e, _) => .error (.WriteFailure e)
  | (.ok _, w1) =>
    match p with
    | .Read filename mode options =>
      match w1.put_string filename with
      | (.error e, _) => .error (.WriteFailure e)
      | (.ok _, w2) =>
        match w2.put_string mode.toBytes with
        | (.error e, _) => .error (.WriteFailure e)
        | (.ok _, w3) =>
          match options.write w3 with
          | (.error e, _) => .error (.WriteFailure e)
          | (.ok _, w4) => .ok (w4.buf, w4.pos)
    | .Write filename mode options =>
      match w1.put_string filename with
      | (.error e, _) => .error (.WriteFailure e)
      | (.ok _, w2) =>
        match w2.put_string mode.toBytes with
        | (.error e, _) => .error (.WriteFailure e)
        | (.ok _, w3) =>
          match options.write w3 with
          | (.error e, _) => .error (.WriteFailure e)
          | (.ok _, w4) => .ok (w4.buf, w4.pos)
    | .Data block data =>
      match w1.put_u16 block with
      | (.error e, _) => .error (.WriteFailure e)
      | (.ok _, w2) =>
        match w2.put_bytes data with
        | (.error e, _) => .error (.WriteFailure e)
        | (.ok _, w3) => .ok (w3.buf, w3.pos)
    | .Ack block =>
      match w1.put_u16 block with
      | (.error e, _) => .error (.WriteFailure e)
      | (.ok _, w2) => .ok (w2.buf, w2.pos)
    | .Error code message =>
      match w1.put_u16 code.toCode with
      | (.error e, _) => .error (.WriteFailure e)
      | (.ok _, w2) =>
        match w2.put_string message with
        | (.error e, _) => .error (.WriteFailure e)
        | (.ok _, w3) => .ok (w3.buf, w3.pos)
    | .OAck options =>
      match options.write w1 with
      | (.error e, _) => .error (.WriteFailure e)
      | (.ok _, w2) => .ok (w2.buf, w2.pos)

/-! ## RRQ transfer engine (`src/rrq.rs`)

The engine's I/O is modelled by oracle streams: `reads` lists the
successive results of `data.read(&mut bufout[4..])` and `recvs` the
successive results of `socket.recv(&mut bufin)`.  The engine consumes them
in order and produces the list of datagrams passed to `socket.send`
together with a tag recording which exit path of `send_to` was taken. -/

/-- One result of `data.read`: a chunk of octets (its length is the `size`
returned), or an I/O failure whose `Display` text is `msg`. -/
inductive ReadEvent where
  | chunk (bytes : List Nat)
  | readFail (msg : List Nat)
deriving DecidableEq

/-- One result of `socket.recv`: a datagram (truncated to the receive
buffer by the engine), a read-timeout (`WouldBlock`/`TimedOut`), or another
I/O failure. -/
inductive RecvEvent where
  | datagram (bytes : List Nat)
  | timedOut
  | ioFail
deriving DecidableEq

/-- Exit paths of the inner receive loop of `send_to`. -/
inductive InnerExit where
  | acked
  | peerErr (code : ErrorCode) (msg : List Nat)
  | tooManyTimeouts
  | recvFailed
  | outOfEvents
deriving DecidableEq

/-- Exit paths of `send_to` as a whole.  `completed` is the normal
short-block exit; `readFailed` is the file-read-error path; `aborted` is
"too many time-outs"; `outOfEvents` marks exhaustion of an oracle stream
(no counterpart in the source, whose streams are infinite). -/
inductive Outcome where
  | completed
  | peerError (code : ErrorCode) (msg : List Nat)
  | aborted
  | recvError
  | readFailed
  | writeError
  | outOfEvents
deriving DecidableEq

/-- The inner `'recv:` loop of `send_to` for one block: wait for `ACK`
with the current block number, ignoring stale `ACK`s, unexpected packet
shapes and mangled datagrams; a peer `Error` packet or a receive I/O error
exits the transfer; a timeout retransmits `sendbuf` while the per-block
counter is at most 7 and aborts otherwise.  Returns the exit, the extra
datagrams sent, and the unread remainder of the receive stream. -/
def recvLoop (blksize : Nat) (sendbuf : List Nat) (blkno : Nat) :
    Nat → List RecvEvent → InnerExit × List (List Nat) × List RecvEvent
  | _, [] => (.outOfEvents, [], [])
  | timeouts, e :: rest =>
    match e with
    | .datagram d =>
      match Packet.parse (d.take blksize) with
      | .ok (.Ack blocknum) =>
        if blocknum = blkno then (.acked, [], rest)
        else recvLoop blksize sendbuf blkno timeouts rest
      | .ok (.Error code message) => (.peerErr code message, [], rest)
      | .ok _ => recvLoop blksize sendbuf blkno timeouts rest
      | .error _ => recvLoop blksize sendbuf blkno timeouts rest
    | .timedOut =>
      if timeouts ≤ 7 then
        match recvLoop blksize sendbuf blkno (timeouts + 1) rest with
        | (exitKind, sent, remaining) => (exitKind, sendbuf :: sent, remaining)
      else (.tooManyTimeouts, [], rest)
    | .ioFail => (.recvFailed, [], rest)

/-- The `'send:` loop of `send_to`, from block number `blkno` on.  Per
block: read a chunk; on success write the `DATA` header into the first four
octets of the send buffer (the header-only write trick with an empty
payload), send header-plus-chunk, and run the receive loop; a short chunk
after an `ACK` ends the transfer.  On a read failure, construct
`Error(NotDefined, "Something broke: <reason>\0")` — the source's format
string ends in an explicit NUL octet — try to serialize it into the send
buffer, send it only when serialization succeeds, and exit. -/
def sendLoop (blksize : Nat) :
    Nat → List ReadEvent → List RecvEvent → List (List Nat) × Outcome
  | _, [], _ => ([], .outOfEvents)
  | blkno, .chunk c :: reads1, recvs =>
    match Packet.write (.Data blkno []) [0, 0, 0, 0] with
    | .error _ => ([], .writeError)
    | .ok (hdr, n) =>
      let sendbuf := hdr.take n ++ c
      match recvLoop blksize sendbuf blkno 0 recvs with
      | (.acked, sent, recvs1) =>
        if c.length < blksize then (sendbuf :: sent, .completed)
        else
          match sendLoop blksize (blkno + 1) reads1 recvs1 with
          | (sent2, out) => (sendbuf :: (sent ++ sent2), out)
      | (.peerErr code msg, sent, _) => (sendbuf :: sent, .peerError code msg)
      | (.tooManyTimeouts, sent, _) => (sendbuf :: sent, .aborted)
      | (.recvFailed, sent, _) => (sendbuf :: sent, .recvError)
      | (.outOfEvents, sent, _) => (sendbuf :: sent, .outOfEvents)
  | _, .readFail msg :: _, _ =>
    let packet : Packet :=
      .Error .NotDefined (strBytes "Something broke: " ++ msg ++ [0])
    match packet.write (List.replicate (4 + blksize) 0) with
    | .ok (buf, length) => ([buf.take length], .readFailed)
    | .error _ => ([], .readFailed)

/-- The effective per-transfer parameters computed at the top of
`send_to`. -/
structure Effective where
  blksize : Nat
  timeoutSecs : Nat
  options_out : Options
deriving DecidableEq

/-- The option-negotiation prologue of `send_to`: the client's blksize is
honored exactly when it is at least 512, the client's timeout exactly when
it is at least 1 second (else the 8-second default), and a client
`tsize = 0` is answered with the file length (when known); any other
client tsize is ignored with a warning.  `windowsize` is never placed in
`options_out`. -/
def computeEffective (options : Options) (len : Option Nat) : Effective :=
  let blkPair :=
    match options.blksize with
    | some b => if 512 ≤ b then (some b, b) else (none, 512)
    | none => (none, 512)
  let tmoPair :=
    match options.timeout with
    | some t => if 1 ≤ t then (some t, t) else (none, 8)
    | none => (none, 8)
  let otsize :=
    match options.tsize with
    | some 0 => len
    | some _ => none
    | none => none
  ⟨blkPair.2, tmoPair.2, ⟨blkPair.1, tmoPair.1, otsize, none⟩⟩

/-- `send_to` as a whole: compute the effective options, send an `OACK`
carrying `options_out` exactly when at least one option was accepted (a
serialization failure propagates, as the source's `?` does), then run the
send loop from block 1. -/
def sendTo (options : Options) (len : Option Nat)
    (reads : List ReadEvent) (recvs : List RecvEvent) :
    List (List Nat) × Outcome :=
  let eff := computeEffective options len
  if eff.options_out.is_set then
    match Packet.write (.OAck eff.options_out) (List.replicate (4 + eff.blksize) 0) with
    | .ok (buf, size) =>
      match sendLoop eff.blksize 1 reads recvs with
      | (sent, out) => (buf.take size :: sent, out)
    | .error _ => ([], .writeError)
  else sendLoop eff.blksize 1 reads recvs

/-- Modelled from the spec: the successive results of `data.read` on a
regular file holding `file`, read through a buffer of `blksize` octets —
each read returns the next `min(blksize, remaining)` octets, so the stream
ends with a chunk strictly shorter than `blksize` (the empty chunk when the
file length is an exact multiple of `blksize`).  The fuel argument only
forces structural recursion; `file.length` is always enough fuel when
`blksize` is positive. -/
def fileChunksAux : Nat → Nat → List Nat → List (List Nat)
  | 0, _, file => [file]
  | fuel + 1, blksize, file =>
    if file.length < blksize then [file]
    else file.take blksize :: fileChunksAux fuel blksize (file.drop blksize)

/-- The chunk sequence `data.read` yields for a regular file. -/
def fileChunks (blksize : Nat) (file : List Nat) : List (List Nat) :=
  fileChunksAux file.length blksize file

/-- The `DATA` header the engine writes for block `blkno` (opcode 3 and the
block number, big-endian). -/
def dataHeader (blkno : Nat) : List Nat := [0, 3, blkno / 256 % 256, blkno % 256]

/-- The wire form of `ACK(blkno)`. -/
def ackBytes (blkno : Nat) : List Nat := [0, 4, blkno / 256 % 256, blkno % 256]

/-! ## Specification-side definitions used by the statements and proofs -/

/-- The wire image of one option slot: nothing when absent, else the name
token and the decimal value token. -/
def optBytes (name : List Nat) (v : Option Nat) : List Nat :=
  match v with
  | none => []
  | some x => name ++ [0] ++ natToDec x ++ [0]

/-- The wire image of an `Options` value in the canonical emit order. -/
def optionsBytes (o : Options) : List Nat :=
  optBytes (strBytes "blksize") o.blksize ++ optBytes (strBytes "timeout") o.timeout ++
    optBytes (strBytes "tsize") o.tsize ++ optBytes (strBytes "windowsize") o.windowsize

/-- The wire image of a list of name/value token pairs. -/
def pairsBytes : List (List Nat × List Nat) → List Nat
  | [] => []
  | (n, v) :: ps => n ++ [0] ++ v ++ [0] ++ pairsBytes ps

/-- Folding a list of token pairs through `Options::parse_option`, as the
parse loop does. -/
def applyPairs (o : Options) : List (List Nat × List Nat) → Except (List Nat) Options
  | [] => .ok o
  | (n, v) :: ps =>
    match Options.parse_option o (fromUtf8Lossy n) (fromUtf8Lossy v) with
    | .ok o1 => applyPairs o1 ps
    | .error e => .error e

/-- The token pairs an `Options` value emits, in canonical order. -/
def pairsOf (o : Options) : List (List Nat × List Nat) :=
  (match o.blksize with
    | none => []
    | some x => [(strBytes "blksize", natToDec x)]) ++
  (match o.timeout with
    | none => []
    | some x => [(strBytes "timeout", natToDec x)]) ++
  (match o.tsize with
    | none => []
    | some x => [(strBytes "tsize", natToDec x)]) ++
  (match o.windowsize with
    | none => []
    | some x => [(strBytes "windowsize", natToDec x)])

/-- The full wire image of a packet (opcode then payload). -/
def packetBytes : Packet → List Nat
  | .Read filename mode options =>
    [0, 1] ++ filename ++ [0] ++ mode.toBytes ++ [0] ++ optionsBytes options
  | .Write filename mode options =>
    [0, 2] ++ filename ++ [0] ++ mode.toBytes ++ [0] ++ optionsBytes options
  | .Data block data => [0, 3, block / 256 % 256, block % 256] ++ data
  | .Ack block => [0, 4, block / 256 % 256, block % 256]
  | .Error code message => [0, 5, 0, code.toCode] ++ message ++ [0]
  | .OAck options => [0, 6] ++ optionsBytes options

/-- A string that `put_string` accepts: ASCII and free of zero octets. -/
def strOkB (s : List Nat) : Bool := s.all (fun b => 0 < b && b < 128)

/-- The option slots lie within their Rust integer types (`u16`, `u8`,
`u64`, `u16`). -/
def Options.wfB (o : Options) : Bool :=
  o.blksize.getD 0 ≤ 65535 && o.timeout.getD 0 ≤ 255 &&
    o.tsize.getD 0 < 2 ^ 64 && o.windowsize.getD 0 ≤ 65535

/-- A valid packet value: ASCII zero-free strings, `u16` block numbers, and
option slots within their integer types (the transfer mode and error code
are valid by construction of their types). -/
def Packet.wfB : Packet → Bool
  | .Read filename _ options => strOkB filename && options.wfB
  | .Write filename _ options => strOkB filename && options.wfB
  | .Data block _ => block ≤ 65535
  | .Ack block => block ≤ 65535
  | .Error _ message => strOkB message
  | .OAck options => options.wfB

/-- The option slots lie within the ranges the specification documents
(RFC 2348/2349/7440): blksize 8..=65464, timeout 1..=255, tsize any `u64`
value, windowsize 1..=65535. -/
def Options.docRangesB (o : Options) : Bool :=
  (match o.blksize with
    | none => true
    | some x => 8 ≤ x && x ≤ 65464) &&
  (match o.timeout with
    | none => true
    | some x => 1 ≤ x && x ≤ 255) &&
  o.tsize.getD 0 < 2 ^ 64 &&
  (match o.windowsize with
    | none => true
    | some x => 1 ≤ x && x ≤ 65535)

/-- The writer has capacity `cap` and its written region is exactly `out`:
the relation every successful sequence of writer calls preserves. -/
structure FlatW (w : PacketWriter) (cap : Nat) (out : List Nat) : Prop where
  hcap : w.buf.length = cap
  hpos : w.pos = out.length
  htake : w.buf.take w.pos = out

/-- Datagrams the inner receive loop ignores: those that do not parse, and
those that parse to a shape other than `Ack` or `Error`. -/
def IgnoredParse : Except PkError Packet → Prop
  | .ok (.Ack _) => False
  | .ok (.Error _ _) => False
  | _ => True

/-- The datagrams the engine sends for the chunk list `cs` starting at
block `bn`: each block's header followed by its chunk. -/
def sendsOf : Nat → List (List Nat) → List (List Nat)
  | _, [] => []
  | bn, c :: cs => (dataHeader bn ++ c) :: sendsOf (bn + 1) cs

/-- A receive stream holding exactly the matching `ACK` for `k` successive
blocks starting at `bn`. -/
def ackTrain : Nat → Nat → List RecvEvent
  | _, 0 => []
  | bn, k + 1 => .datagram (ackBytes bn) :: ackTrain (bn + 1) k

/-! ## Lemmas: ASCII decoding and decimal strings -/

lemma fromUtf8Lossy_ascii : ∀ s : List Nat, (∀ b ∈ s, b < 128) → fromUtf8Lossy s = s := by
  intro s
  induction s with
  | nil => intro _; rfl
  | cons b rest ih =>
    intro h
    have hb : b < 128 := h b (List.mem_cons_self _ _)
    rw [fromUtf8Lossy.eq_def]
    simp only [if_pos hb]
    rw [ih (fun x hx => h x (List.mem_cons_of_mem _ hx))]

lemma natToDecAux_low {n : Nat} (h : n < 10) : ∀ fuel, natToDecAux fuel n = [48 + n] := by
  intro fuel
  cases fuel with
  | zero => rfl
  | succ f => simp [natToDecAux, h]

lemma natToDecAux_eq_of_le :
    ∀ f1 f2 n : Nat, n ≤ f1 → n ≤ f2 → natToDecAux f1 n = natToDecAux f2 n := by
  intro f1
  induction f1 with
  | zero =>
    intro f2 n h1 _
    have : n = 0 := by omega
    subst this
    rw [natToDecAux_low (by omega) f2]
    rfl
  | succ f ih =>
    intro f2 n h1 h2
    by_cases h10 : n < 10
    · rw [natToDecAux_low h10, natToDecAux_low h10]
    · cases f2 with
      | zero => omega
      | succ g =>
        simp only [natToDecAux, if_neg h10]
        rw [ih g (n / 10) (by omega) (by omega)]

lemma natToDec_eq (n : Nat) :
    natToDec n = if n < 10 then [48 + n] else natToDec (n / 10) ++ [48 + n % 10] := by
  by_cases h10 : n < 10
  · rw [if_pos h10, natToDec, natToDecAux_low h10]
  · rw [if_neg h10]
    obtain ⟨m, rfl⟩ : ∃ m, n = m + 1 := ⟨n - 1, by omega⟩
    show natToDecAux (m + 1) (m + 1) = _
    simp only [natToDecAux, if_neg h10]
    rw [natToDecAux_eq_of_le m ((m + 1) / 10) ((m + 1) / 10) (by omega) (by omega)]
    rfl

lemma natToDec_digits : ∀ n : Nat, ∀ b ∈ natToDec n, 48 ≤ b ∧ b ≤ 57 := by
  intro n
  induction n using Nat.strong_induction_on with
  | _ n ih =>
    intro b hb
    rw [natToDec_eq] at hb
    by_cases h10 : n < 10
    · rw [if_pos h10] at hb
      simp at hb
      omega
    · rw [if_neg h10] at hb
      rcases List.mem_append.mp hb with h | h
      · exact ih (n / 10) (Nat.div_lt_self (by omega) (by omega)) b h
      · simp at h
        have := Nat.mod_lt n (show 0 < 10 by omega)
        omega

lemma digitsVal_append (l : List Nat) (d : Nat) :
    digitsVal (l ++ [d]) = 10 * digitsVal l + (d - 48) := by
  simp [digitsVal, List.foldl_append]
  omega

lemma digitsVal_natToDec : ∀ n : Nat, digitsVal (natToDec n) = n := by
  intro n
  induction n using Nat.strong_induction_on with
  | _ n ih =>
    rw [natToDec_eq]
    by_cases h10 : n < 10
    · rw [if_pos h10]
      simp [digitsVal]
    · rw [if_neg h10, digitsVal_append, ih (n / 10) (Nat.div_lt_self (by omega) (by omega))]
      omega

lemma natToDec_ne_nil (n : Nat) : natToDec n ≠ [] := by
  rw [natToDec_eq]
  by_cases h10 : n < 10
  · simp [h10]
  · simp [h10]

lemma parseUInt_natToDec {max v : Nat} (h : v ≤ max) :
    parseUInt max (natToDec v) = .ok v := by
  have hd := natToDec_digits v
  cases hnd : natToDec v with
  | nil => exact absurd hnd (natToDec_ne_nil v)
  | cons b rest =>
    have hb : 48 ≤ b ∧ b ≤ 57 := hd b (by rw [hnd]; exact List.mem_cons_self _ _)
    simp only [parseUInt]
    rw [if_neg (show ¬b = 43 by omega)]
    rw [if_neg (by simp)]
    rw [if_pos]
    · have : digitsVal (b :: rest) = v := by rw [← hnd, digitsVal_natToDec]
      rw [this, if_pos h]
    · rw [List.all_eq_true]
      intro d hdm
      have : d ∈ natToDec v := by rw [hnd]; exact hdm
      have := hd d this
      simp [isDigitByte]
      omega

lemma natToDec_ascii (n : Nat) : ∀ b ∈ natToDec n, b < 128 := by
  intro b hb
  have := natToDec_digits n b hb
  omega

lemma natToDec_no_zero (n : Nat) : ∀ b ∈ natToDec n, b ≠ 0 := by
  intro b hb
  have := natToDec_digits n b hb
  omega

lemma natToDec_length_le : ∀ k n : Nat, n < 10 ^ k → 0 < k → (natToDec n).length ≤ k := by
  intro k
  induction k with
  | zero => omega
  | succ j ih =>
    intro n hn _
    rw [natToDec_eq]
    by_cases h10 : n < 10
    · simp [h10]
    · rw [if_neg h10]
      have hj : 0 < j := by
        rcases Nat.eq_zero_or_pos j with hj0 | hj0
        · subst hj0; simp at hn; omega
        · exact hj0
      have : n / 10 < 10 ^ j := by
        have : n < 10 ^ j * 10 := by
          rw [pow_succ] at hn
          omega
        omega
      have := ih (n / 10) this hj
      simp [List.length_append]
      omega

/-! ## Lemmas: the reader -/

lemma findIdx?_append_zero (s rest : List Nat) (hs : ∀ b ∈ s, b ≠ 0) :
    ∀ i, (s ++ 0 :: rest).findIdx? (· == 0) i = some (i + s.length) := by
  induction s with
  | nil => intro i; simp
  | cons a s ih =>
    intro i
    have ha : a ≠ 0 := hs a (List.mem_cons_self _ _)
    simp only [List.cons_append, List.findIdx?_cons]
    rw [if_neg (by simpa using ha)]
    rw [ih (fun b hb => hs b (List.mem_cons_of_mem _ hb)) (i + 1)]
    congr 1
    simp
    omega

lemma findIdx?_no_zero (l : List Nat) (h : ∀ b ∈ l, b ≠ 0) :
    l.findIdx? (· == 0) = none := by
  rw [List.findIdx?_eq_none_iff]
  intro x hx
  simpa using h x hx

lemma take_u16_eq {r : PacketReader} {a b : Nat} {rest : List Nat}
    (h : r.buf.drop r.pos = a :: b :: rest) :
    r.take_u16 = (.ok (256 * a + b), ⟨r.buf, r.pos + 2⟩) ∧
      r.buf.drop (r.pos + 2) = rest := by
  have hlen : r.buf.length - r.pos = rest.length + 2 := by
    have := List.length_drop r.pos r.buf
    rw [h] at this
    simp at this
    omega
  constructor
  · rw [PacketReader.take_u16, if_pos (by rw [PacketReader.rem]; omega)]
    rw [h]
    rfl
  · have : r.buf.drop (r.pos + 2) = (r.buf.drop r.pos).drop 2 := by
      rw [List.drop_drop]
    rw [this, h]
    rfl

lemma take_u16_fail {r : PacketReader} (h : r.buf.length - r.pos < 2) :
    r.take_u16 = (.error .NotEnoughData, r) := by
  rw [PacketReader.take_u16, if_neg (by rw [PacketReader.rem]; omega)]

lemma take_string_eq {r : PacketReader} {s rest : List Nat}
    (hs : ∀ b ∈ s, b ≠ 0) (h : r.buf.drop r.pos = s ++ 0 :: rest) :
    r.take_string = (.ok (fromUtf8Lossy s), ⟨r.buf, r.pos + s.length + 1⟩) ∧
      r.buf.drop (r.pos + s.length + 1) = rest := by
  constructor
  · rw [PacketReader.take_string]
    rw [h, findIdx?_append_zero s rest hs 0]
    simp only [Nat.zero_add]
    rw [List.take_left]
  · have : r.buf.drop (r.pos + s.length + 1) = (r.buf.drop r.pos).drop (s.length + 1) := by
      rw [List.drop_drop, Nat.add_assoc]
    rw [this, h]
    rw [show s ++ 0 :: rest = (s ++ [0]) ++ rest by simp]
    rw [List.drop_left' (by simp)]

lemma take_string_fail {r : PacketReader} (h : ∀ b ∈ r.buf.drop r.pos, b ≠ 0) :
    r.take_string = (.error .StringNotTerminated, r) := by
  rw [PacketReader.take_string]
  rw [findIdx?_no_zero _ h]

lemma take_remaining_eq (r : PacketReader) :
    r.take_remaining = (.ok (r.buf.drop r.pos), ⟨r.buf, r.buf.length⟩) := rfl

/-! ## Lemmas: the writer -/

lemma writeAt_length {buf : List Nat} {pos : Nat} (bytes : List Nat)
    (h : pos + bytes.length ≤ buf.length) :
    (writeAt buf pos bytes).length = buf.length := by
  rw [writeAt]
  simp [List.length_take, List.length_drop]
  omega

lemma writeAt_take {buf : List Nat} {pos : Nat} (bytes : List Nat)
    (h : pos ≤ buf.length) :
    (writeAt buf pos bytes).take (pos + bytes.length) = buf.take pos ++ bytes := by
  rw [writeAt]
  have hlen : (buf.take pos ++ bytes).length = pos + bytes.length := by
    simp [List.length_take]
    omega
  rw [← hlen, List.take_left]

lemma flat_put_u16 {w : PacketWriter} {cap : Nat} {out : List Nat} (v : Nat)
    (hf : FlatW w cap out) (hroom : out.length + 2 ≤ cap) :
    ∃ w1, w.put_u16 v = (.ok (), w1) ∧
      FlatW w1 cap (out ++ [v / 256 % 256, v % 256]) := by
  obtain ⟨hcap, hpos, htake⟩ := hf
  refine ⟨⟨writeAt w.buf w.pos [v / 256 % 256, v % 256], w.pos + 2⟩, ?_, ?_, ?_, ?_⟩
  · rw [PacketWriter.put_u16, if_pos (show 2 ≤ w.rem by rw [PacketWriter.rem]; omega)]
  · show (writeAt w.buf w.pos [v / 256 % 256, v % 256]).length = cap
    rw [writeAt_length _ (by simp only [List.length_cons, List.length_nil]; omega)]
    exact hcap
  · show w.pos + 2 = (out ++ [v / 256 % 256, v % 256]).length
    simp only [List.length_append, List.length_cons, List.length_nil]
    omega
  · show (writeAt w.buf w.pos [v / 256 % 256, v % 256]).take (w.pos + 2) = _
    rw [show w.pos + 2 = w.pos + [v / 256 % 256, v % 256].length from rfl]
    rw [writeAt_take _ (by omega), htake]

lemma put_u16_inv {w w1 : PacketWriter} {v : Nat} {u : Unit} {cap : Nat} {out : List Nat}
    (h : w.put_u16 v = (.ok u, w1)) (hf : FlatW w cap out) :
    FlatW w1 cap (out ++ [v / 256 % 256, v % 256]) := by
  obtain ⟨hcap, hpos, htake⟩ := hf
  rw [PacketWriter.put_u16] at h
  by_cases hr : 2 ≤ w.rem
  · rw [if_pos hr] at h
    rw [PacketWriter.rem] at hr
    have hw1 : w1 = ⟨writeAt w.buf w.pos [v / 256 % 256, v % 256], w.pos + 2⟩ := by
      have := congrArg Prod.snd h
      simpa using this.symm
    subst hw1
    refine ⟨?_, ?_, ?_⟩
    · show (writeAt w.buf w.pos [v / 256 % 256, v % 256]).length = cap
      rw [writeAt_length _ (by simp only [List.length_cons, List.length_nil]; omega)]
      exact hcap
    · show w.pos + 2 = (out ++ [v / 256 % 256, v % 256]).length
      simp only [List.length_append, List.length_cons, List.length_nil]
      omega
    · show (writeAt w.buf w.pos [v / 256 % 256, v % 256]).take (w.pos + 2) = _
      rw [show w.pos + 2 = w.pos + [v / 256 % 256, v % 256].length from rfl]
      rw [writeAt_take _ (by omega), htake]
  · rw [if_neg hr] at h
    exact absurd (congrArg Prod.fst h) (by simp)

lemma flat_put_string {w : PacketWriter} {cap : Nat} {out : List Nat} (s : List Nat)
    (hf : FlatW w cap out) (hascii : ∀ b ∈ s, b < 128) (hzero : ∀ b ∈ s, b ≠ 0)
    (hroom : out.length + s.length + 1 ≤ cap) :
    ∃ w1, w.put_string s = (.ok (), w1) ∧ FlatW w1 cap (out ++ s ++ [0]) := by
  obtain ⟨hcap, hpos, htake⟩ := hf
  have hc1 : (s.all fun b => decide (b < 128)) = true := by
    rw [List.all_eq_true]
    intro b hb
    simpa using hascii b hb
  have hc2 : ¬s.contains 0 = true := by
    simp [List.contains]
    intro hmem
    exact hzero 0 hmem rfl
  have hc3 : ¬w.pos + s.length ≥ w.buf.length := by omega
  refine ⟨⟨writeAt w.buf w.pos (s ++ [0]), w.pos + s.length + 1⟩, ?_, ?_, ?_, ?_⟩
  · rw [PacketWriter.put_string, if_pos hc1, if_neg hc2, if_neg hc3]
  · show (writeAt w.buf w.pos (s ++ [0])).length = cap
    rw [writeAt_length _ ?_]
    · exact hcap
    · rw [List.length_append]
      simp only [List.length_cons, List.length_nil]
      omega
  · show w.pos + s.length + 1 = (out ++ s ++ [0]).length
    simp only [List.length_append, List.length_cons, List.length_nil]
    omega
  · show (writeAt w.buf w.pos (s ++ [0])).take (w.pos + s.length + 1) = _
    rw [show w.pos + s.length + 1 = w.pos + (s ++ [0]).length by
      rw [List.length_append]; simp only [List.length_cons, List.length_nil]; omega]
    rw [writeAt_take _ (by omega), htake, List.append_assoc]

lemma put_string_inv {w w1 : PacketWriter} {s : List Nat} {u : Unit} {cap : Nat}
    {out : List Nat} (h : w.put_string s = (.ok u, w1)) (hf : FlatW w cap out) :
    (∀ b ∈ s, b < 128) ∧ (∀ b ∈ s, b ≠ 0) ∧ FlatW w1 cap (out ++ s ++ [0]) := by
  obtain ⟨hcap, hpos, htake⟩ := hf
  rw [PacketWriter.put_string] at h
  by_cases ha : s.all (fun b => decide (b < 128)) = true
  · rw [if_pos ha] at h
    by_cases hz : s.contains 0 = true
    · rw [if_pos hz] at h
      exact absurd (congrArg Prod.fst h) (by simp)
    · rw [if_neg hz] at h
      by_cases hsp : w.pos + s.length ≥ w.buf.length
      · rw [if_pos hsp] at h
        exact absurd (congrArg Prod.fst h) (by simp)
      · rw [if_neg hsp] at h
        have hw1 : w1 = ⟨writeAt w.buf w.pos (s ++ [0]), w.pos + s.length + 1⟩ := by
          have := congrArg Prod.snd h
          simpa using this.symm
        subst hw1
        refine ⟨?_, ?_, ?_, ?_, ?_⟩
        · intro b hb
          rw [List.all_eq_true] at ha
          simpa using ha b hb
        · intro b hb hb0
          subst hb0
          rw [List.contains, List.elem_eq_mem] at hz
          simp at hz
          exact hz hb
        · show (writeAt w.buf w.pos (s ++ [0])).length = cap
          rw [writeAt_length _ ?_]
          · exact hcap
          · rw [List.length_append]
            simp only [List.length_cons, List.length_nil]
            omega
        · show w.pos + s.length + 1 = (out ++ s ++ [0]).length
          simp only [List.length_append, List.length_cons, List.length_nil]
          omega
        · show (writeAt w.buf w.pos (s ++ [0])).take (w.pos + s.length + 1) = _
          rw [show w.pos + s.length + 1 = w.pos + (s ++ [0]).length by
            rw [List.length_append]; simp only [List.length_cons, List.length_nil]; omega]
          rw [writeAt_take _ (by omega), htake, List.append_assoc]
  · rw [if_neg ha] at h
    exact absurd (congrArg Prod.fst h) (by simp)

lemma flat_put_bytes {w : PacketWriter} {cap : Nat} {out : List Nat} (bytes : List Nat)
    (hf : FlatW w cap out) (hroom : out.length + bytes.length ≤ cap) :
    ∃ w1, w.put_bytes bytes = (.ok (), w1) ∧ FlatW w1 cap (out ++ bytes) := by
  obtain ⟨hcap, hpos, htake⟩ := hf
  refine ⟨⟨writeAt w.buf w.pos bytes, w.pos + bytes.length⟩, ?_, ?_, ?_, ?_⟩
  · rw [PacketWriter.put_bytes, if_neg (by omega)]
  · show (writeAt w.buf w.pos bytes).length = cap
    rw [writeAt_length _ (by omega)]
    exact hcap
  · show w.pos + bytes.length = (out ++ bytes).length
    rw [List.length_append]
    omega
  · show (writeAt w.buf w.pos bytes).take (w.pos + bytes.length) = _
    rw [writeAt_take _ (by omega), htake]

lemma put_bytes_inv {w w1 : PacketWriter} {bytes : List Nat} {u : Unit} {cap : Nat}
    {out : List Nat} (h : w.put_bytes bytes = (.ok u, w1)) (hf : FlatW w cap out) :
    FlatW w1 cap (out ++ bytes) := by
  obtain ⟨hcap, hpos, htake⟩ := hf
  rw [PacketWriter.put_bytes] at h
  by_cases hsp : w.pos + bytes.length > w.buf.length
  · rw [if_pos hsp] at h
    exact absurd (congrArg Prod.fst h) (by simp)
  · rw [if_neg hsp] at h
    have hw1 : w1 = ⟨writeAt w.buf w.pos bytes, w.pos + bytes.length⟩ := by
      have := congrArg Prod.snd h
      simpa using this.symm
    subst hw1
    refine ⟨?_, ?_, ?_⟩
    · show (writeAt w.buf w.pos bytes).length = cap
      rw [writeAt_length _ (by omega)]
      exact hcap
    · show w.pos + bytes.length = (out ++ bytes).length
      rw [List.length_append]
      omega
    · show (writeAt w.buf w.pos bytes).take (w.pos + bytes.length) = _
      rw [writeAt_take _ (by omega), htake]

lemma flatW_init (buffer : List Nat) : FlatW ⟨buffer, 0⟩ buffer.length [] :=
  ⟨rfl, rfl, rfl⟩

/-! ## Lemmas: the option token iterator and parse loop -/

lemma optIterNext_terminated {buf : List Nat} {pos : Nat} {s rest : List Nat}
    (hs : ∀ b ∈ s, b ≠ 0) (h : buf.drop pos = s ++ 0 :: rest) :
    optIterNext buf pos = (.Terminated s, pos + s.length + 1) ∧
      buf.drop (pos + s.length + 1) = rest := by
  constructor
  · rw [optIterNext, h, findIdx?_append_zero s rest hs 0]
    simp only [Nat.zero_add]
    rw [List.take_left]
  · have hd : buf.drop (pos + s.length + 1) = (buf.drop pos).drop (s.length + 1) := by
      rw [List.drop_drop, Nat.add_assoc]
    rw [hd, h]
    rw [show s ++ 0 :: rest = (s ++ [0]) ++ rest by simp]
    rw [List.drop_left' (by simp)]

lemma optIterNext_unterminated {buf : List Nat} {pos : Nat} {s : List Nat}
    (hs : ∀ b ∈ s, b ≠ 0) (hne : s ≠ []) (h : buf.drop pos = s) :
    optIterNext buf pos = (.Unterminated s, buf.length) := by
  have hlt : pos < buf.length := by
    have hlen := List.length_drop pos buf
    rw [h] at hlen
    have : 0 < s.length := List.length_pos.mpr hne
    omega
  rw [optIterNext, h, findIdx?_no_zero s hs, if_pos hlt]

lemma optIterNext_end {buf : List Nat} {pos : Nat} (h : buf.drop pos = []) :
    optIterNext buf pos = (.None, pos) := by
  have hle : buf.length ≤ pos := by
    have hlen := List.length_drop pos buf
    rw [h] at hlen
    simp at hlen
    omega
  rw [optIterNext, h]
  simp only [List.findIdx?_nil]
  rw [if_neg (by omega)]

lemma optionsParseGo_pairs :
    ∀ (ps : List (List Nat × List Nat)) (fuel : Nat) (buf : List Nat) (pos : Nat)
      (o : Options),
      ps.length ≤ fuel →
      (∀ p ∈ ps, (∀ b ∈ p.1, b ≠ 0) ∧ (∀ b ∈ p.2, b ≠ 0)) →
      buf.drop pos = pairsBytes ps →
      optionsParseGo fuel buf pos o = applyPairs o ps := by
  intro ps
  induction ps with
  | nil =>
    intro fuel buf pos o _ _ h
    cases fuel with
    | zero => rfl
    | succ f =>
      rw [optionsParseGo, optIterNext_end (by rw [h]; rfl)]
      rfl
  | cons p ps ih =>
    intro fuel buf pos o hfuel hz h
    obtain ⟨n, v⟩ := p
    cases fuel with
    | zero => simp at hfuel
    | succ f =>
      have hzn : ∀ b ∈ n, b ≠ 0 := (hz (n, v) (List.mem_cons_self _ _)).1
      have hzv : ∀ b ∈ v, b ≠ 0 := (hz (n, v) (List.mem_cons_self _ _)).2
      have h1 : buf.drop pos = n ++ 0 :: (v ++ 0 :: pairsBytes ps) := by
        rw [h]
        simp [pairsBytes]
      obtain ⟨hstep1, hdrop1⟩ := optIterNext_terminated hzn h1
      have h2 : buf.drop (pos + n.length + 1) = v ++ 0 :: pairsBytes ps := hdrop1
      obtain ⟨hstep2, hdrop2⟩ := optIterNext_terminated hzv h2
      rw [optionsParseGo, hstep1]
      dsimp only
      rw [hstep2]
      dsimp only
      simp only [applyPairs]
      cases hpo : Options.parse_option o (fromUtf8Lossy n) (fromUtf8Lossy v) with
      | ok o1 =>
        dsimp only
        exact ih f buf _ o1 (by simpa using hfuel)
          (fun q hq => hz q (List.mem_cons_of_mem _ hq)) hdrop2
      | error e => rfl

lemma pairsBytes_length_ge : ∀ ps : List (List Nat × List Nat),
    ps.length ≤ (pairsBytes ps).length := by
  intro ps
  induction ps with
  | nil => simp [pairsBytes]
  | cons p ps ih =>
    obtain ⟨n, v⟩ := p
    have h : pairsBytes ((n, v) :: ps) = n ++ [0] ++ v ++ [0] ++ pairsBytes ps := rfl
    rw [h]
    simp only [List.length_append, List.length_cons, List.length_nil]
    omega

lemma optionsParse_pairsBytes (ps : List (List Nat × List Nat))
    (hz : ∀ p ∈ ps, (∀ b ∈ p.1, b ≠ 0) ∧ (∀ b ∈ p.2, b ≠ 0)) :
    Options.parse (pairsBytes ps) = applyPairs Options.new ps := by
  rw [Options.parse]
  exact optionsParseGo_pairs ps ((pairsBytes ps).length + 1) (pairsBytes ps) 0 Options.new
    (by have := pairsBytes_length_ge ps; omega) hz rfl

/-! ## Lemmas: recognized options and the options round trip -/

lemma fromUtf8Lossy_natToDec (x : Nat) : fromUtf8Lossy (natToDec x) = natToDec x :=
  fromUtf8Lossy_ascii _ (natToDec_ascii x)

lemma lossy_blksizeTok : fromUtf8Lossy (strBytes "blksize") = strBytes "blksize" := by decide

lemma lossy_timeoutTok : fromUtf8Lossy (strBytes "timeout") = strBytes "timeout" := by decide

lemma lossy_tsizeTok : fromUtf8Lossy (strBytes "tsize") = strBytes "tsize" := by decide

lemma lossy_windowsizeTok :
    fromUtf8Lossy (strBytes "windowsize") = strBytes "windowsize" := by decide

lemma parse_option_blksize (o : Options) (x : Nat) (hx : x ≤ 65535) :
    Options.parse_option o (strBytes "blksize") (natToDec x) =
      .ok { o with blksize := some x } := by
  rw [Options.parse_option]
  rw [show asciiLowercase (strBytes "blksize") = strBytes "blksize" by decide]
  rw [if_pos rfl, parseUInt_natToDec hx]

lemma parse_option_timeout (o : Options) (x : Nat) (hx : x ≤ 255) :
    Options.parse_option o (strBytes "timeout") (natToDec x) =
      .ok { o with timeout := some x } := by
  rw [Options.parse_option]
  rw [show asciiLowercase (strBytes "timeout") = strBytes "timeout" by decide]
  rw [if_neg (by decide), if_pos rfl, parseUInt_natToDec hx]

lemma parse_option_tsize (o : Options) (x : Nat) (hx : x < 2 ^ 64) :
    Options.parse_option o (strBytes "tsize") (natToDec x) =
      .ok { o with tsize := some x } := by
  rw [Options.parse_option]
  rw [show asciiLowercase (strBytes "tsize") = strBytes "tsize" by decide]
  rw [if_neg (by decide), if_neg (by decide), if_pos rfl,
    parseUInt_natToDec (show x ≤ 2 ^ 64 - 1 by omega)]

lemma parse_option_windowsize (o : Options) (x : Nat) (hx : x ≤ 65535) :
    Options.parse_option o (strBytes "windowsize") (natToDec x) =
      .ok { o with windowsize := some x } := by
  rw [Options.parse_option]
  rw [show asciiLowercase (strBytes "windowsize") = strBytes "windowsize" by decide]
  rw [if_neg (by decide), if_neg (by decide), if_neg (by decide), if_pos rfl,
    parseUInt_natToDec hx]

lemma pairsOf_zero_free (o : Options) :
    ∀ p ∈ pairsOf o, (∀ b ∈ p.1, b ≠ 0) ∧ (∀ b ∈ p.2, b ≠ 0) := by
  intro p hp
  rcases o with ⟨bl, tm, ts, ws⟩
  rw [pairsOf] at hp
  simp only [List.mem_append] at hp
  have hname : ∀ (tok : String) (x : Nat),
      p = (strBytes tok, natToDec x) →
      (∀ b ∈ strBytes tok, b ≠ 0) →
      (∀ b ∈ p.1, b ≠ 0) ∧ (∀ b ∈ p.2, b ≠ 0) := by
    intro tok x hp htok
    subst hp
    exact ⟨htok, natToDec_no_zero x⟩
  rcases hp with ((hp | hp) | hp) | hp
  · cases bl with
    | none => simp at hp
    | some x =>
      simp at hp
      exact hname "blksize" x (by simp [hp]) (by decide)
  · cases tm with
    | none => simp at hp
    | some x =>
      simp at hp
      exact hname "timeout" x (by simp [hp]) (by decide)
  · cases ts with
    | none => simp at hp
    | some x =>
      simp at hp
      exact hname "tsize" x (by simp [hp]) (by decide)
  · cases ws with
    | none => simp at hp
    | some x =>
      simp at hp
      exact hname "windowsize" x (by simp [hp]) (by decide)

lemma optionsBytes_eq_pairsBytes (o : Options) :
    optionsBytes o = pairsBytes (pairsOf o) := by
  rcases o with ⟨bl, tm, ts, ws⟩
  cases bl <;> cases tm <;> cases ts <;> cases ws <;>
    simp [optionsBytes, pairsOf, pairsBytes, optBytes]

lemma applyPairs_pairsOf (o : Options) (hwf : o.wfB = true) :
    applyPairs Options.new (pairsOf o) = .ok o := by
  rcases o with ⟨bl, tm, ts, ws⟩
  rw [Options.wfB] at hwf
  simp only [Bool.and_eq_true, decide_eq_true_eq] at hwf
  obtain ⟨⟨⟨hbl, htm⟩, hts⟩, hws⟩ := hwf
  cases bl <;> cases tm <;> cases ts <;> cases ws <;>
    (simp_all only [Option.getD_some, Option.getD_none, pairsOf, List.nil_append,
      List.append_nil, List.cons_append, List.singleton_append, applyPairs,
      fromUtf8Lossy_natToDec, lossy_blksizeTok, lossy_timeoutTok, lossy_tsizeTok,
      lossy_windowsizeTok, parse_option_blksize, parse_option_timeout,
      parse_option_tsize, parse_option_windowsize, Options.new])

lemma optionsParse_optionsBytes (o : Options) (hwf : o.wfB = true) :
    Options.parse (optionsBytes o) = .ok o := by
  rw [optionsBytes_eq_pairsBytes, optionsParse_pairsBytes _ (pairsOf_zero_free o),
    applyPairs_pairsOf o hwf]

lemma flat_putOpt {w : PacketWriter} {cap : Nat} {out : List Nat}
    (name : List Nat) (v : Option Nat)
    (hna : ∀ b ∈ name, b < 128) (hnz : ∀ b ∈ name, b ≠ 0)
    (hf : FlatW w cap out) (hroom : out.length + (optBytes name v).length ≤ cap) :
    ∃ w1, putOpt name v w = (.ok (), w1) ∧ FlatW w1 cap (out ++ optBytes name v) := by
  cases v with
  | none =>
    refine ⟨w, rfl, ?_⟩
    simpa [optBytes] using hf
  | some x =>
    rw [optBytes] at hroom
    simp only [List.length_append, List.length_cons, List.length_nil] at hroom
    obtain ⟨w1, hw1, hf1⟩ := flat_put_string name hf hna hnz (by omega)
    have hroom2 : (out ++ name ++ [0]).length + (natToDec x).length + 1 ≤ cap := by
      simp only [List.length_append, List.length_cons, List.length_nil]
      omega
    obtain ⟨w2, hw2, hf2⟩ := flat_put_string (natToDec x) hf1 (natToDec_ascii x)
      (natToDec_no_zero x) hroom2
    refine ⟨w2, ?_, ?_⟩
    · rw [putOpt, hw1, wseq, hw2]
    · rw [optBytes]
      have hassoc : out ++ (name ++ [0] ++ natToDec x ++ [0]) =
          out ++ name ++ [0] ++ natToDec x ++ [0] := by
        simp [List.append_assoc]
      rw [hassoc]
      exact hf2

lemma putOpt_inv {w w1 : PacketWriter} {name : List Nat} {v : Option Nat} {u : Unit}
    {cap : Nat} {out : List Nat} (h : putOpt name v w = (.ok u, w1))
    (hf : FlatW w cap out) : FlatW w1 cap (out ++ optBytes name v) := by
  cases v with
  | none =>
    rw [putOpt] at h
    have hw1 : w1 = w := by
      have := congrArg Prod.snd h
      simpa using this.symm
    subst hw1
    simpa [optBytes] using hf
  | some x =>
    rw [putOpt, wseq.eq_def] at h
    cases h1 : w.put_string name with
    | mk r1 wa =>
      rw [h1] at h
      cases r1 with
      | error e => simp at h
      | ok u1 =>
        simp only at h
        obtain ⟨_, _, hfa⟩ := put_string_inv h1 hf
        obtain ⟨_, _, hfb⟩ := put_string_inv h hfa
        rw [optBytes]
        have : out ++ (name ++ [0] ++ natToDec x ++ [0]) =
            out ++ name ++ [0] ++ natToDec x ++ [0] := by
          simp [List.append_assoc]
        rw [this]
        exact hfb

lemma flat_optionsWrite {w : PacketWriter} {cap : Nat} {out : List Nat} (o : Options)
    (hf : FlatW w cap out) (hroom : out.length + (optionsBytes o).length ≤ cap) :
    ∃ w1, Options.write o w = (.ok (), w1) ∧ FlatW w1 cap (out ++ optionsBytes o) := by
  rw [optionsBytes] at hroom
  simp only [List.length_append] at hroom
  obtain ⟨w1, hw1, hf1⟩ := flat_putOpt (strBytes "blksize") o.blksize (by decide)
    (by decide) hf (by omega)
  obtain ⟨w2, hw2, hf2⟩ := flat_putOpt (strBytes "timeout") o.timeout (by decide)
    (by decide) hf1 (by simp only [List.length_append]; omega)
  obtain ⟨w3, hw3, hf3⟩ := flat_putOpt (strBytes "tsize") o.tsize (by decide)
    (by decide) hf2 (by simp only [List.length_append]; omega)
  obtain ⟨w4, hw4, hf4⟩ := flat_putOpt (strBytes "windowsize") o.windowsize (by decide)
    (by decide) hf3 (by simp only [List.length_append]; omega)
  refine ⟨w4, ?_, ?_⟩
  · rw [Options.write, hw1, wseq, hw2, wseq, hw3, wseq, hw4]
  · rw [optionsBytes]
    simpa [List.append_assoc] using hf4

lemma optionsWrite_inv {w w1 : PacketWriter} {o : Options} {u : Unit} {cap : Nat}
    {out : List Nat} (h : Options.write o w = (.ok u, w1)) (hf : FlatW w cap out) :
    FlatW w1 cap (out ++ optionsBytes o) := by
  rw [Options.write, wseq.eq_def] at h
  cases h1 : putOpt (strBytes "blksize") o.blksize w with
  | mk r1 wa =>
    rw [h1] at h
    cases r1 with
    | error e => simp at h
    | ok u1 =>
      simp only at h
      rw [wseq.eq_def] at h
      cases h2 : putOpt (strBytes "timeout") o.timeout wa with
      | mk r2 wb =>
        rw [h2] at h
        cases r2 with
        | error e => simp at h
        | ok u2 =>
          simp only at h
          rw [wseq.eq_def] at h
          cases h3 : putOpt (strBytes "tsize") o.tsize wb with
          | mk r3 wc =>
            rw [h3] at h
            cases r3 with
            | error e => simp at h
            | ok u3 =>
              simp only at h
              have hfa := putOpt_inv h1 hf
              have hfb := putOpt_inv h2 hfa
              have hfc := putOpt_inv h3 hfb
              have hfd := putOpt_inv h hfc
              rw [optionsBytes]
              simpa [List.append_assoc] using hfd

lemma natToDec_le_5 {x : Nat} (hx : x ≤ 65535) : (natToDec x).length ≤ 5 :=
  natToDec_length_le 5 x (by omega) (by omega)

lemma natToDec_le_3 {x : Nat} (hx : x ≤ 255) : (natToDec x).length ≤ 3 :=
  natToDec_length_le 3 x (by omega) (by omega)

lemma natToDec_le_20 {x : Nat} (hx : x < 2 ^ 64) : (natToDec x).length ≤ 20 :=
  natToDec_length_le 20 x (by
    have : (2 : Nat) ^ 64 ≤ 10 ^ 20 := by norm_num
    omega) (by omega)

lemma optionsBytes_length_le (o : Options) (hwf : o.wfB = true)
    (hws : o.windowsize = none) : (optionsBytes o).length ≤ 53 := by
  rw [Options.wfB] at hwf
  simp only [Bool.and_eq_true, decide_eq_true_eq] at hwf
  obtain ⟨⟨⟨hbl, htm⟩, hts⟩, hws'⟩ := hwf
  rw [optionsBytes, hws]
  simp only [List.length_append]
  have h1 : (optBytes (strBytes "blksize") o.blksize).length ≤ 14 := by
    cases hb : o.blksize with
    | none => simp [optBytes]
    | some x =>
      rw [hb] at hbl
      simp only [Option.getD_some] at hbl
      have := natToDec_le_5 hbl
      simp only [optBytes, List.length_append, List.length_cons, List.length_nil]
      have h7 : (strBytes "blksize").length = 7 := by decide
      omega
  have h2 : (optBytes (strBytes "timeout") o.timeout).length ≤ 12 := by
    cases hb : o.timeout with
    | none => simp [optBytes]
    | some x =>
      rw [hb] at htm
      simp only [Option.getD_some] at htm
      have := natToDec_le_3 htm
      simp only [optBytes, List.length_append, List.length_cons, List.length_nil]
      have h7 : (strBytes "timeout").length = 7 := by decide
      omega
  have h3 : (optBytes (strBytes "tsize") o.tsize).length ≤ 27 := by
    cases hb : o.tsize with
    | none => simp [optBytes]
    | some x =>
      rw [hb] at hts
      simp only [Option.getD_some] at hts
      have := natToDec_le_20 hts
      simp only [optBytes, List.length_append, List.length_cons, List.length_nil]
      have h5 : (strBytes "tsize").length = 5 := by decide
      omega
  have h4 : (optBytes (strBytes "windowsize") (none : Option Nat)).length = 0 := by
    simp [optBytes]
  omega

/-! ## Lemmas: the packet codec -/

lemma strOkB_ascii {s : List Nat} (h : strOkB s = true) : ∀ b ∈ s, b < 128 := by
  rw [strOkB, List.all_eq_true] at h
  intro b hb
  have := h b hb
  simp at this
  omega

lemma strOkB_nz {s : List Nat} (h : strOkB s = true) : ∀ b ∈ s, b ≠ 0 := by
  rw [strOkB, List.all_eq_true] at h
  intro b hb
  have := h b hb
  simp at this
  omega

lemma tm_toBytes_ascii (m : TransferMode) : ∀ b ∈ m.toBytes, b < 128 := by
  cases m <;> decide

lemma tm_toBytes_nz (m : TransferMode) : ∀ b ∈ m.toBytes, b ≠ 0 := by
  cases m <;> decide

lemma tm_parse_toBytes (m : TransferMode) : TransferMode.parse m.toBytes = some m := by
  cases m <;> decide

lemma tm_lossy (m : TransferMode) : fromUtf8Lossy m.toBytes = m.toBytes := by
  cases m <;> decide

lemma ec_fromCode_toCode (c : ErrorCode) : ErrorCode.fromCode c.toCode = some c := by
  cases c <;> rfl

lemma ec_toCode_le (c : ErrorCode) : c.toCode ≤ 8 := by cases c <;> decide

lemma options_read_eq {r : PacketReader} {o : Options} (hwf : o.wfB = true)
    (h : r.buf.drop r.pos = optionsBytes o) :
    Options.read r = (.ok o, ⟨r.buf, r.buf.length⟩) := by
  rw [Options.read, take_remaining_eq]
  dsimp only
  rw [h, optionsParse_optionsBytes o hwf]

lemma tm_read_eq {r : PacketReader} {m : TransferMode} {rest : List Nat}
    (h : r.buf.drop r.pos = m.toBytes ++ 0 :: rest) :
    TransferMode.read r = (.ok m, ⟨r.buf, r.pos + m.toBytes.length + 1⟩) ∧
      r.buf.drop (r.pos + m.toBytes.length + 1) = rest := by
  obtain ⟨ht, hd⟩ := take_string_eq (tm_toBytes_nz m) h
  refine ⟨?_, hd⟩
  rw [TransferMode.read, ht]
  dsimp only
  rw [tm_lossy, tm_parse_toBytes]

lemma ec_read_eq {r : PacketReader} {c : ErrorCode} {rest : List Nat}
    (h : r.buf.drop r.pos = 0 :: c.toCode :: rest) :
    ErrorCode.read r = (.ok c, ⟨r.buf, r.pos + 2⟩) ∧
      r.buf.drop (r.pos + 2) = rest := by
  obtain ⟨ht, hd⟩ := take_u16_eq h
  refine ⟨?_, hd⟩
  rw [ErrorCode.read, ht]
  dsimp only
  rw [show 256 * 0 + c.toCode = c.toCode by omega, ec_fromCode_toCode]

lemma packetParse_packetBytes (p : Packet) (hwf : p.wfB = true) :
    Packet.parse (packetBytes p) = .ok p := by
  cases p with
  | Read f m o =>
    rw [Packet.wfB] at hwf
    simp only [Bool.and_eq_true] at hwf
    obtain ⟨hstr, hopt⟩ := hwf
    have hfa := strOkB_ascii hstr
    have hfz := strOkB_nz hstr
    have hshape : packetBytes (.Read f m o) =
        0 :: 1 :: (f ++ 0 :: (m.toBytes ++ 0 :: optionsBytes o)) := by
      rw [packetBytes]
      simp [List.append_assoc]
    rw [hshape, Packet.parse]
    obtain ⟨ht1, hd1⟩ :=
      take_u16_eq (r := ⟨0 :: 1 :: (f ++ 0 :: (m.toBytes ++ 0 :: optionsBytes o)), 0⟩)
        (a := 0) (b := 1) rfl
    rw [ht1]
    dsimp only
    rw [show (256 * 0 + 1 : Nat) = 1 from rfl]
    rw [show OpCode.fromCode 1 = some OpCode.RRQ from rfl]
    dsimp only
    obtain ⟨ht2, hd2⟩ :=
      take_string_eq (r := ⟨0 :: 1 :: (f ++ 0 :: (m.toBytes ++ 0 :: optionsBytes o)), 0 + 2⟩)
        hfz hd1
    rw [ht2]
    dsimp only
    obtain ⟨ht3, hd3⟩ :=
      tm_read_eq (r := ⟨0 :: 1 :: (f ++ 0 :: (m.toBytes ++ 0 :: optionsBytes o)),
        0 + 2 + f.length + 1⟩) hd2
    rw [ht3]
    dsimp only
    rw [options_read_eq (r := ⟨0 :: 1 :: (f ++ 0 :: (m.toBytes ++ 0 :: optionsBytes o)),
      0 + 2 + f.length + 1 + m.toBytes.length + 1⟩) hopt hd3]
    dsimp only
    rw [fromUtf8Lossy_ascii f hfa]
  | Write f m o =>
    rw [Packet.wfB] at hwf
    simp only [Bool.and_eq_true] at hwf
    obtain ⟨hstr, hopt⟩ := hwf
    have hfa := strOkB_ascii hstr
    have hfz := strOkB_nz hstr
    have hshape : packetBytes (.Write f m o) =
        0 :: 2 :: (f ++ 0 :: (m.toBytes ++ 0 :: optionsBytes o)) := by
      rw [packetBytes]
      simp [List.append_assoc]
    rw [hshape, Packet.parse]
    obtain ⟨ht1, hd1⟩ :=
      take_u16_eq (r := ⟨0 :: 2 :: (f ++ 0 :: (m.toBytes ++ 0 :: optionsBytes o)), 0⟩)
        (a := 0) (b := 2) rfl
    rw [ht1]
    dsimp only
    rw [show (256 * 0 + 2 : Nat) = 2 from rfl]
    rw [show OpCode.fromCode 2 = some OpCode.WRQ from rfl]
    dsimp only
    obtain ⟨ht2, hd2⟩ :=
      take_string_eq (r := ⟨0 :: 2 :: (f ++ 0 :: (m.toBytes ++ 0 :: optionsBytes o)), 0 + 2⟩)
        hfz hd1
    rw [ht2]
    dsimp only
    obtain ⟨ht3, hd3⟩ :=
      tm_read_eq (r := ⟨0 :: 2 :: (f ++ 0 :: (m.toBytes ++ 0 :: optionsBytes o)),
        0 + 2 + f.length + 1⟩) hd2
    rw [ht3]
    dsimp only
    rw [options_read_eq (r := ⟨0 :: 2 :: (f ++ 0 :: (m.toBytes ++ 0 :: optionsBytes o)),
      0 + 2 + f.length + 1 + m.toBytes.length + 1⟩) hopt hd3]
    dsimp only
    rw [fromUtf8Lossy_ascii f hfa]
  | Data block data =>
    rw [Packet.wfB] at hwf
    simp only [decide_eq_true_eq] at hwf
    have hshape : packetBytes (.Data block data) =
        0 :: 3 :: (block / 256 % 256 :: block % 256 :: data) := by
      rw [packetBytes]
      simp
    rw [hshape, Packet.parse]
    obtain ⟨ht1, hd1⟩ :=
      take_u16_eq (r := ⟨0 :: 3 :: (block / 256 % 256 :: block % 256 :: data), 0⟩)
        (a := 0) (b := 3) rfl
    rw [ht1]
    dsimp only
    rw [show (256 * 0 + 3 : Nat) = 3 from rfl]
    rw [show OpCode.fromCode 3 = some OpCode.DATA from rfl]
    dsimp only
    obtain ⟨ht2, hd2⟩ :=
      take_u16_eq (r := ⟨0 :: 3 :: (block / 256 % 256 :: block % 256 :: data), 0 + 2⟩)
        (a := block / 256 % 256) (b := block % 256) hd1
    rw [ht2]
    dsimp only
    rw [take_remaining_eq]
    dsimp only
    rw [hd2]
    rw [show 256 * (block / 256 % 256) + block % 256 = block by omega]
  | Ack block =>
    rw [Packet.wfB] at hwf
    simp only [decide_eq_true_eq] at hwf
    have hshape : packetBytes (.Ack block) =
        0 :: 4 :: (block / 256 % 256 :: block % 256 :: []) := rfl
    rw [hshape, Packet.parse]
    obtain ⟨ht1, hd1⟩ :=
      take_u16_eq (r := ⟨0 :: 4 :: (block / 256 % 256 :: block % 256 :: []), 0⟩)
        (a := 0) (b := 4) rfl
    rw [ht1]
    dsimp only
    rw [show (256 * 0 + 4 : Nat) = 4 from rfl]
    rw [show OpCode.fromCode 4 = some OpCode.ACK from rfl]
    dsimp only
    obtain ⟨ht2, hd2⟩ :=
      take_u16_eq (r := ⟨0 :: 4 :: (block / 256 % 256 :: block % 256 :: []), 0 + 2⟩)
        (a := block / 256 % 256) (b := block % 256) hd1
    rw [ht2]
    dsimp only
    rw [show 256 * (block / 256 % 256) + block % 256 = block by omega]
  | Error code message =>
    rw [Packet.wfB] at hwf
    have hma := strOkB_ascii hwf
    have hmz := strOkB_nz hwf
    have hshape : packetBytes (.Error code message) =
        0 :: 5 :: (0 :: code.toCode :: (message ++ 0 :: [])) := by
      rw [packetBytes]
      simp [List.append_assoc]
    rw [hshape, Packet.parse]
    obtain ⟨ht1, hd1⟩ :=
      take_u16_eq (r := ⟨0 :: 5 :: (0 :: code.toCode :: (message ++ 0 :: [])), 0⟩)
        (a := 0) (b := 5) rfl
    rw [ht1]
    dsimp only
    rw [show (256 * 0 + 5 : Nat) = 5 from rfl]
    rw [show OpCode.fromCode 5 = some OpCode.ERROR from rfl]
    dsimp only
    obtain ⟨ht2, hd2⟩ :=
      ec_read_eq (r := ⟨0 :: 5 :: (0 :: code.toCode :: (message ++ 0 :: [])), 0 + 2⟩) hd1
    rw [ht2]
    dsimp only
    obtain ⟨ht3, hd3⟩ :=
      take_string_eq (r := ⟨0 :: 5 :: (0 :: code.toCode :: (message ++ 0 :: [])),
        0 + 2 + 2⟩) hmz hd2
    rw [ht3]
    dsimp only
    rw [fromUtf8Lossy_ascii message hma]
  | OAck o =>
    rw [Packet.wfB] at hwf
    have hshape : packetBytes (.OAck o) = 0 :: 6 :: optionsBytes o := by
      rw [packetBytes]
      simp
    rw [hshape, Packet.parse]
    obtain ⟨ht1, hd1⟩ :=
      take_u16_eq (r := ⟨0 :: 6 :: optionsBytes o, 0⟩) (a := 0) (b := 6) rfl
    rw [ht1]
    dsimp only
    rw [show (256 * 0 + 6 : Nat) = 6 from rfl]
    rw [show OpCode.fromCode 6 = some OpCode.OACK from rfl]
    dsimp only
    rw [options_read_eq (r := ⟨0 :: 6 :: optionsBytes o, 0 + 2⟩) hwf hd1]

lemma packetWrite_inv {p : Packet} {buffer buf1 : List Nat} {n : Nat}
    (h : Packet.write p buffer = .ok (buf1, n)) :
    buf1.take n = packetBytes p := by
  cases p with
  | Read f m o =>
    simp only [Packet.write] at h
    cases h1 : PacketWriter.put_u16 ⟨buffer, 0⟩ (Packet.Read f m o).opcode.toCode with
    | mk r1 wa =>
      rw [h1] at h
      cases r1 with
      | error e => simp at h
      | ok u1 =>
        dsimp only at h
        cases h2 : wa.put_string f with
        | mk r2 wb =>
          rw [h2] at h
          cases r2 with
          | error e => simp at h
          | ok u2 =>
            dsimp only at h
            cases h3 : wb.put_string m.toBytes with
            | mk r3 wc =>
              rw [h3] at h
              cases r3 with
              | error e => simp at h
              | ok u3 =>
                dsimp only at h
                cases h4 : Options.write o wc with
                | mk r4 wd =>
                  rw [h4] at h
                  cases r4 with
                  | error e => simp at h
                  | ok u4 =>
                    dsimp only at h
                    simp only [Except.ok.injEq, Prod.mk.injEq] at h
                    obtain ⟨hb, hn⟩ := h
                    subst hb
                    subst hn
                    have hf1 := put_u16_inv h1 (flatW_init buffer)
                    have hf2 := (put_string_inv h2 hf1).2.2
                    have hf3 := (put_string_inv h3 hf2).2.2
                    have hf4 := optionsWrite_inv h4 hf3
                    rw [hf4.htake]
                    rw [packetBytes]
                    simp [List.append_assoc]
                    simp [Packet.opcode, OpCode.toCode]
  | Write f m o =>
    simp only [Packet.write] at h
    cases h1 : PacketWriter.put_u16 ⟨buffer, 0⟩ (Packet.Write f m o).opcode.toCode with
    | mk r1 wa =>
      rw [h1] at h
      cases r1 with
      | error e => simp at h
      | ok u1 =>
        dsimp only at h
        cases h2 : wa.put_string f with
        | mk r2 wb =>
          rw [h2] at h
          cases r2 with
          | error e => simp at h
          | ok u2 =>
            dsimp only at h
            cases h3 : wb.put_string m.toBytes with
            | mk r3 wc =>
              rw [h3] at h
              cases r3 with
              | error e => simp at h
              | ok u3 =>
                dsimp only at h
                cases h4 : Options.write o wc with
                | mk r4 wd =>
                  rw [h4] at h
                  cases r4 with
                  | error e => simp at h
                  | ok u4 =>
                    dsimp only at h
                    simp only [Except.ok.injEq, Prod.mk.injEq] at h
                    obtain ⟨hb, hn⟩ := h
                    subst hb
                    subst hn
                    have hf1 := put_u16_inv h1 (flatW_init buffer)
                    have hf2 := (put_string_inv h2 hf1).2.2
                    have hf3 := (put_string_inv h3 hf2).2.2
                    have hf4 := optionsWrite_inv h4 hf3
                    rw [hf4.htake]
                    rw [packetBytes]
                    simp [List.append_assoc]
                    simp [Packet.opcode, OpCode.toCode]
  | Data block data =>
    simp only [Packet.write] at h
    cases h1 : PacketWriter.put_u16 ⟨buffer, 0⟩ (Packet.Data block data).opcode.toCode with
    | mk r1 wa =>
      rw [h1] at h
      cases r1 with
      | error e => simp at h
      | ok u1 =>
        dsimp only at h
        cases h2 : wa.put_u16 block with
        | mk r2 wb =>
          rw [h2] at h
          cases r2 with
          | error e => simp at h
          | ok u2 =>
            dsimp only at h
            cases h3 : wb.put_bytes data with
            | mk r3 wc =>
              rw [h3] at h
              cases r3 with
              | error e => simp at h
              | ok u3 =>
                dsimp only at h
                simp only [Except.ok.injEq, Prod.mk.injEq] at h
                obtain ⟨hb, hn⟩ := h
                subst hb
                subst hn
                have hf1 := put_u16_inv h1 (flatW_init buffer)
                have hf2 := put_u16_inv h2 hf1
                have hf3 := put_bytes_inv h3 hf2
                rw [hf3.htake]
                rw [packetBytes]
                simp [List.append_assoc]
                simp [Packet.opcode, OpCode.toCode]
  | Ack block =>
    simp only [Packet.write] at h
    cases h1 : PacketWriter.put_u16 ⟨buffer, 0⟩ (Packet.Ack block).opcode.toCode with
    | mk r1 wa =>
      rw [h1] at h
      cases r1 with
      | error e => simp at h
      | ok u1 =>
        dsimp only at h
        cases h2 : wa.put_u16 block with
        | mk r2 wb =>
          rw [h2] at h
          cases r2 with
          | error e => simp at h
          | ok u2 =>
            dsimp only at h
            simp only [Except.ok.injEq, Prod.mk.injEq] at h
            obtain ⟨hb, hn⟩ := h
            subst hb
            subst hn
            have hf1 := put_u16_inv h1 (flatW_init buffer)
            have hf2 := put_u16_inv h2 hf1
            rw [hf2.htake]
            rw [packetBytes]
            simp [List.append_assoc]
            simp [Packet.opcode, OpCode.toCode]
  | Error code message =>
    simp only [Packet.write] at h
    cases h1 : PacketWriter.put_u16 ⟨buffer, 0⟩
        (Packet.Error code message).opcode.toCode with
    | mk r1 wa =>
      rw [h1] at h
      cases r1 with
      | error e => simp at h
      | ok u1 =>
        dsimp only at h
        cases h2 : wa.put_u16 code.toCode with
        | mk r2 wb =>
          rw [h2] at h
          cases r2 with
          | error e => simp at h
          | ok u2 =>
            dsimp only at h
            cases h3 : wb.put_string message with
            | mk r3 wc =>
              rw [h3] at h
              cases r3 with
              | error e => simp at h
              | ok u3 =>
                dsimp only at h
                simp only [Except.ok.injEq, Prod.mk.injEq] at h
                obtain ⟨hb, hn⟩ := h
                subst hb
                subst hn
                have hf1 := put_u16_inv h1 (flatW_init buffer)
                have hf2 := put_u16_inv h2 hf1
                have hf3 := (put_string_inv h3 hf2).2.2
                rw [hf3.htake]
                rw [packetBytes]
                have hc : code.toCode / 256 % 256 = 0 := by
                  have := ec_toCode_le code
                  omega
                have hc2 : code.toCode % 256 = code.toCode := by
                  have := ec_toCode_le code
                  omega
                rw [hc, hc2]
                simp [List.append_assoc]
                simp [Packet.opcode, OpCode.toCode]
  | OAck o =>
    simp only [Packet.write] at h
    cases h1 : PacketWriter.put_u16 ⟨buffer, 0⟩ (Packet.OAck o).opcode.toCode with
    | mk r1 wa =>
      rw [h1] at h
      cases r1 with
      | error e => simp at h
      | ok u1 =>
        dsimp only at h
        cases h2 : Options.write o wa with
        | mk r2 wb =>
          rw [h2] at h
          cases r2 with
          | error e => simp at h
          | ok u2 =>
            dsimp only at h
            simp only [Except.ok.injEq, Prod.mk.injEq] at h
            obtain ⟨hb, hn⟩ := h
            subst hb
            subst hn
            have hf1 := put_u16_inv h1 (flatW_init buffer)
            have hf2 := optionsWrite_inv h2 hf1
            rw [hf2.htake]
            rw [packetBytes]
            simp [List.append_assoc]
            simp [Packet.opcode, OpCode.toCode]

/-! ## Lemmas: the RRQ engine -/

lemma dataHeader_write (blkno : Nat) :
    Packet.write (.Data blkno []) [0, 0, 0, 0] = .ok (dataHeader blkno, 4) := by
  rw [Packet.write]
  simp only [Packet.opcode, OpCode.toCode]
  rw [show PacketWriter.put_u16 ⟨[0, 0, 0, 0], 0⟩ 3 = (.ok (), ⟨[0, 3, 0, 0], 2⟩) from rfl]
  dsimp only
  rw [show PacketWriter.put_u16 ⟨[0, 3, 0, 0], 2⟩ blkno =
    (.ok (), ⟨[0, 3, blkno / 256 % 256, blkno % 256], 4⟩) from rfl]
  dsimp only
  rw [show PacketWriter.put_bytes ⟨[0, 3, blkno / 256 % 256, blkno % 256], 4⟩ [] =
    (.ok (), ⟨[0, 3, blkno / 256 % 256, blkno % 256], 4⟩) from rfl]
  dsimp only
  rfl

lemma recvLoop_ack_match {bs : Nat} {sb : List Nat} {bn t : Nat} {d : List Nat}
    {rest : List RecvEvent} (h : Packet.parse (d.take bs) = .ok (.Ack bn)) :
    recvLoop bs sb bn t (.datagram d :: rest) = (.acked, [], rest) := by
  rw [recvLoop, h]
  dsimp only
  rw [if_pos rfl]

lemma recvLoop_ack_stale {bs : Nat} {sb : List Nat} {bn t b : Nat} {d : List Nat}
    {rest : List RecvEvent} (h : Packet.parse (d.take bs) = .ok (.Ack b))
    (hne : b ≠ bn) :
    recvLoop bs sb bn t (.datagram d :: rest) = recvLoop bs sb bn t rest := by
  rw [recvLoop, h]
  dsimp only
  rw [if_neg hne]

lemma recvLoop_peer_error {bs : Nat} {sb : List Nat} {bn t : Nat} {d : List Nat}
    {c : ErrorCode} {m : List Nat} {rest : List RecvEvent}
    (h : Packet.parse (d.take bs) = .ok (.Error c m)) :
    recvLoop bs sb bn t (.datagram d :: rest) = (.peerErr c m, [], rest) := by
  rw [recvLoop, h]

lemma recvLoop_ignored {bs : Nat} {sb : List Nat} {bn t : Nat} {d : List Nat}
    {rest : List RecvEvent} (h : IgnoredParse (Packet.parse (d.take bs))) :
    recvLoop bs sb bn t (.datagram d :: rest) = recvLoop bs sb bn t rest := by
  rw [recvLoop]
  cases hp : Packet.parse (d.take bs) with
  | error e => rfl
  | ok pk =>
    rw [hp] at h
    cases pk with
    | Read f m o => rfl
    | Write f m o => rfl
    | Data b dat => rfl
    | Ack b => exact False.elim h
    | Error c m => exact False.elim h
    | OAck o => rfl

lemma recvLoop_timeout_retransmit {bs : Nat} {sb : List Nat} {bn t : Nat}
    {rest : List RecvEvent} (h : t ≤ 7) :
    recvLoop bs sb bn t (.timedOut :: rest) =
      ((recvLoop bs sb bn (t + 1) rest).1,
        sb :: (recvLoop bs sb bn (t + 1) rest).2.1,
        (recvLoop bs sb bn (t + 1) rest).2.2) := by
  rw [recvLoop]
  dsimp only
  rw [if_pos h]

lemma recvLoop_timeout_abort {bs : Nat} {sb : List Nat} {bn t : Nat}
    {rest : List RecvEvent} (h : ¬t ≤ 7) :
    recvLoop bs sb bn t (.timedOut :: rest) = (.tooManyTimeouts, [], rest) := by
  rw [recvLoop]
  dsimp only
  rw [if_neg h]

lemma recvLoop_all_timeouts {bs : Nat} {sb : List Nat} {bn : Nat} :
    ∀ (k t : Nat) (rest : List RecvEvent), 1 ≤ k → t + k = 9 →
      recvLoop bs sb bn t (List.replicate k .timedOut ++ rest) =
        (.tooManyTimeouts, List.replicate (8 - t) sb, rest) := by
  intro k
  induction k with
  | zero => omega
  | succ j ih =>
    intro t rest _ ht
    rw [List.replicate_succ, List.cons_append]
    by_cases h7 : t ≤ 7
    · rw [recvLoop_timeout_retransmit h7]
      rw [ih (t + 1) rest (by omega) (by omega)]
      have : 8 - t = (8 - (t + 1)) + 1 := by omega
      rw [this, List.replicate_succ]
    · have ht8 : t = 8 := by omega
      have hj : j = 0 := by omega
      subst ht8
      subst hj
      rw [recvLoop_timeout_abort h7]
      rfl

lemma ackBytes_take {b bs : Nat} (h : 4 ≤ bs) : (ackBytes b).take bs = ackBytes b :=
  List.take_of_length_le (by rw [show (ackBytes b).length = 4 from rfl]; omega)

lemma parse_ackBytes {b bs : Nat} (hbs : 4 ≤ bs) (hb : b ≤ 65535) :
    Packet.parse ((ackBytes b).take bs) = .ok (.Ack b) := by
  rw [ackBytes_take hbs]
  rw [show ackBytes b = packetBytes (.Ack b) from rfl]
  exact packetParse_packetBytes _ (by simp [Packet.wfB]; exact hb)

lemma errWrite_fails (msg : List Nat) (bs : Nat) :
    ∃ e, Packet.write
        (.Error .NotDefined (strBytes "Something broke: " ++ msg ++ [0]))
        (List.replicate (4 + bs) 0) = .error (.WriteFailure e) := by
  have hcap : (List.replicate (4 + bs) 0).length = 4 + bs := by simp
  have hf0 : FlatW ⟨List.replicate (4 + bs) 0, 0⟩ (4 + bs) [] := ⟨hcap, rfl, rfl⟩
  obtain ⟨w1, hw1, hf1⟩ := flat_put_u16 5 hf0
    (by simp only [List.length_nil]; omega)
  obtain ⟨w2, hw2, hf2⟩ := flat_put_u16 0 hf1
    (by simp only [List.length_append, List.length_nil, List.length_cons]; omega)
  have hcontains : (strBytes "Something broke: " ++ msg ++ [0]).contains 0 = true := by
    simp [List.contains]
  rw [Packet.write]
  simp only [Packet.opcode, OpCode.toCode]
  rw [hw1]
  dsimp only
  rw [show ErrorCode.NotDefined.toCode = 0 from rfl, hw2]
  dsimp only
  rw [PacketWriter.put_string]
  by_cases ha : (strBytes "Something broke: " ++ msg ++ [0]).all
      (fun b => decide (b < 128)) = true
  · rw [if_pos ha, if_pos hcontains]
    exact ⟨.StringContainsNull, rfl⟩
  · rw [if_neg ha]
    exact ⟨.StringNotASCII, rfl⟩

lemma sendLoop_readFail (bs bn : Nat) (msg : List Nat) (reads : List ReadEvent)
    (recvs : List RecvEvent) :
    sendLoop bs bn (.readFail msg :: reads) recvs = ([], .readFailed) := by
  obtain ⟨e, he⟩ := errWrite_fails msg bs
  rw [sendLoop]
  rw [he]

lemma sendLoop_chunk (bs bn : Nat) (c : List Nat) (rs : List ReadEvent)
    (recvs : List RecvEvent) :
    sendLoop bs bn (.chunk c :: rs) recvs =
      match recvLoop bs (dataHeader bn ++ c) bn 0 recvs with
      | (.acked, sent, recvs1) =>
        if c.length < bs then ((dataHeader bn ++ c) :: sent, .completed)
        else
          match sendLoop bs (bn + 1) rs recvs1 with
          | (sent2, out) => ((dataHeader bn ++ c) :: (sent ++ sent2), out)
      | (.peerErr code msg, sent, _) => ((dataHeader bn ++ c) :: sent, .peerError code msg)
      | (.tooManyTimeouts, sent, _) => ((dataHeader bn ++ c) :: sent, .aborted)
      | (.recvFailed, sent, _) => ((dataHeader bn ++ c) :: sent, .recvError)
      | (.outOfEvents, sent, _) => ((dataHeader bn ++ c) :: sent, .outOfEvents) := by
  rw [sendLoop, dataHeader_write]
  dsimp only
  rw [show (dataHeader bn).take 4 = dataHeader bn from rfl]

lemma recvLoop_timeouts_then {bs : Nat} {sb : List Nat} {bn : Nat} :
    ∀ (k t : Nat) (rest : List RecvEvent), t + k ≤ 8 →
      recvLoop bs sb bn t (List.replicate k .timedOut ++ rest) =
        ((recvLoop bs sb bn (t + k) rest).1,
          List.replicate k sb ++ (recvLoop bs sb bn (t + k) rest).2.1,
          (recvLoop bs sb bn (t + k) rest).2.2) := by
  intro k
  induction k with
  | zero => intro t rest _; rfl
  | succ j ih =>
    intro t rest h
    rw [List.replicate_succ, List.cons_append]
    rw [recvLoop_timeout_retransmit (by omega)]
    rw [ih (t + 1) rest (by omega)]
    rw [show t + (j + 1) = t + 1 + j by omega]
    rw [List.replicate_succ, List.cons_append]

lemma sendLoop_happy {bs : Nat} (hbs : 4 ≤ bs) :
    ∀ (init : List (List Nat)) (last : List Nat) (bn : Nat) (extra : List RecvEvent),
      (∀ c ∈ init, c.length = bs) → last.length < bs →
      bn + init.length + 1 ≤ 65536 →
      sendLoop bs bn ((init ++ [last]).map .chunk)
          (ackTrain bn (init.length + 1) ++ extra) =
        (sendsOf bn (init ++ [last]), .completed) := by
  intro init
  induction init with
  | nil =>
    intro last bn extra _ hlast hbn
    simp only [List.nil_append, List.map_cons, List.map_nil, List.length_nil,
      List.length_cons] at hbn ⊢
    rw [show ackTrain bn (0 + 1) = [.datagram (ackBytes bn)] from rfl]
    rw [show ([RecvEvent.datagram (ackBytes bn)] ++ extra) =
      .datagram (ackBytes bn) :: extra from rfl]
    rw [sendLoop_chunk]
    rw [recvLoop_ack_match (parse_ackBytes hbs (by omega))]
    dsimp only
    rw [if_pos hlast]
    rfl
  | cons c init ih =>
    intro last bn extra hinit hlast hbn
    have hc : c.length = bs := hinit c (List.mem_cons_self _ _)
    simp only [List.cons_append, List.map_cons, List.length_cons] at hbn ⊢
    rw [show ackTrain bn (init.length + 1 + 1) =
      .datagram (ackBytes bn) :: ackTrain (bn + 1) (init.length + 1) from rfl]
    rw [List.cons_append, sendLoop_chunk]
    rw [recvLoop_ack_match (parse_ackBytes hbs (by omega))]
    dsimp only
    rw [if_neg (by omega)]
    rw [ih last (bn + 1) extra (fun x hx => hinit x (List.mem_cons_of_mem _ hx)) hlast
      (by omega)]
    rw [sendsOf]
    rfl

lemma fileChunksAux_spec :
    ∀ (fuel bs : Nat) (file : List Nat), 0 < bs → file.length ≤ fuel →
      ∃ init last, fileChunksAux fuel bs file = init ++ [last] ∧
        (∀ c ∈ init, c.length = bs) ∧ last.length < bs ∧
        (bs ∣ file.length → last = []) := by
  intro fuel
  induction fuel with
  | zero =>
    intro bs file hbs hlen
    have hfile : file = [] := List.length_eq_zero.mp (by omega)
    subst hfile
    exact ⟨[], [], rfl, by simp, by simpa using hbs, fun _ => rfl⟩
  | succ fl ih =>
    intro bs file hbs hlen
    by_cases hshort : file.length < bs
    · refine ⟨[], file, ?_, by simp, hshort, ?_⟩
      · rw [fileChunksAux, if_pos hshort]
        rfl
      · intro hdvd
        rcases Nat.eq_zero_or_pos file.length with h0 | h0
        · exact List.length_eq_zero.mp h0
        · exact absurd (Nat.le_of_dvd h0 hdvd) (by omega)
    · obtain ⟨init, last, heq, hinit, hlast, hdvd⟩ :=
        ih bs (file.drop bs) hbs (by simp [List.length_drop]; omega)
      refine ⟨file.take bs :: init, last, ?_, ?_, hlast, ?_⟩
      · rw [fileChunksAux, if_neg hshort, heq]
        rfl
      · intro x hx
        rcases List.mem_cons.mp hx with hx | hx
        · subst hx
          simp [List.length_take]
          omega
        · exact hinit x hx
      · intro hd
        apply hdvd
        rw [List.length_drop]
        exact Nat.dvd_sub' hd (Nat.dvd_refl bs)

lemma fileChunks_spec (bs : Nat) (file : List Nat) (hbs : 0 < bs) :
    ∃ init last, fileChunks bs file = init ++ [last] ∧
      (∀ c ∈ init, c.length = bs) ∧ last.length < bs ∧
      (bs ∣ file.length → last = []) :=
  fileChunksAux_spec file.length bs file hbs (Nat.le_refl _)

lemma oackWrite_ok (o : Options) (bs : Nat) (hwf : o.wfB = true)
    (hws : o.windowsize = none) (hbs : 512 ≤ bs) :
    ∃ buf1, Packet.write (.OAck o) (List.replicate (4 + bs) 0) =
        .ok (buf1, 2 + (optionsBytes o).length) ∧
      buf1.take (2 + (optionsBytes o).length) = packetBytes (.OAck o) := by
  have hlen53 := optionsBytes_length_le o hwf hws
  have hcap : (List.replicate (4 + bs) 0).length = 4 + bs := by simp
  have hf0 : FlatW ⟨List.replicate (4 + bs) 0, 0⟩ (4 + bs) [] := ⟨hcap, rfl, rfl⟩
  obtain ⟨w1, hw1, hf1⟩ := flat_put_u16 6 hf0 (by simp only [List.length_nil]; omega)
  obtain ⟨w2, hw2, hf2⟩ := flat_optionsWrite o hf1
    (by simp only [List.length_append, List.length_nil, List.length_cons]; omega)
  have hpos2 : w2.pos = 2 + (optionsBytes o).length := by
    rw [hf2.hpos]
    simp only [List.nil_append, List.length_append, List.length_cons, List.length_nil,
      Nat.zero_add]
  refine ⟨w2.buf, ?_, ?_⟩
  · rw [Packet.write]
    simp only [Packet.opcode, OpCode.toCode]
    rw [hw1]
    dsimp only
    rw [hw2]
    dsimp only
    rw [hpos2]
  · rw [← hpos2, hf2.htake, packetBytes]
    simp

lemma computeEffective_blksize_out (options : Options) (len : Option Nat) :
    (computeEffective options len).options_out.blksize =
      match options.blksize with
      | some b => if 512 ≤ b then some b else none
      | none => none := by
  rw [computeEffective]
  cases options.blksize with
  | none => rfl
  | some b =>
    by_cases hb : 512 ≤ b
    · simp [hb]
    · simp [hb]

lemma computeEffective_blksize (options : Options) (len : Option Nat) :
    (computeEffective options len).blksize =
      match options.blksize with
      | some b => if 512 ≤ b then b else 512
      | none => 512 := by
  rw [computeEffective]
  cases options.blksize with
  | none => rfl
  | some b =>
    by_cases hb : 512 ≤ b
    · simp [hb]
    · simp [hb]

lemma computeEffective_timeout_out (options : Options) (len : Option Nat) :
    (computeEffective options len).options_out.timeout =
      match options.timeout with
      | some t => if 1 ≤ t then some t else none
      | none => none := by
  rw [computeEffective]
  cases options.timeout with
  | none => rfl
  | some t =>
    by_cases ht : 1 ≤ t
    · simp [ht]
    · simp [ht]

lemma computeEffective_timeout (options : Options) (len : Option Nat) :
    (computeEffective options len).timeoutSecs =
      match options.timeout with
      | some t => if 1 ≤ t then t else 8
      | none => 8 := by
  rw [computeEffective]
  cases options.timeout with
  | none => rfl
  | some t =>
    by_cases ht : 1 ≤ t
    · simp [ht]
    · simp [ht]

lemma computeEffective_tsize_out (options : Options) (len : Option Nat) :
    (computeEffective options len).options_out.tsize =
      match options.tsize with
      | some 0 => len
      | some _ => none
      | none => none := by
  rw [computeEffective]

lemma computeEffective_windowsize_out (options : Options) (len : Option Nat) :
    (computeEffective options len).options_out.windowsize = none := by
  rw [computeEffective]

lemma computeEffective_blksize_ge (options : Options) (len : Option Nat) :
    512 ≤ (computeEffective options len).blksize := by
  rw [computeEffective_blksize]
  cases options.blksize with
  | none => dsimp only; omega
  | some b =>
    by_cases hb : 512 ≤ b
    · simp [hb]
    · simp [hb]

lemma computeEffective_out_wf (options : Options) (len : Option Nat)
    (hwf : options.wfB = true) (hlen : len.getD 0 < 2 ^ 64) :
    (computeEffective options len).options_out.wfB = true := by
  rw [Options.wfB] at hwf ⊢
  simp only [Bool.and_eq_true, decide_eq_true_eq] at hwf ⊢
  obtain ⟨⟨⟨hbl, htm⟩, _⟩, _⟩ := hwf
  rw [computeEffective_blksize_out, computeEffective_timeout_out,
    computeEffective_tsize_out, computeEffective_windowsize_out]
  refine ⟨⟨⟨?_, ?_⟩, ?_⟩, by simp⟩
  · cases hb : options.blksize with
    | none => simp
    | some b =>
      rw [hb] at hbl
      simp only [Option.getD_some] at hbl
      by_cases h5 : 512 ≤ b
      · simp [h5]
        omega
      · simp [h5]
  · cases ht : options.timeout with
    | none => simp
    | some t =>
      rw [ht] at htm
      simp only [Option.getD_some] at htm
      by_cases h1 : 1 ≤ t
      · simp [h1]
        omega
      · simp [h1]
  · cases ht : options.tsize with
    | none => simp
    | some t =>
      cases t with
      | zero =>
        cases len with
        | none => simp
        | some l =>
          simp only [Option.getD_some] at hlen
          simp
          omega
      | succ u => simp

lemma docRanges_wf {o : Options} (h : Options.docRangesB o = true) :
    Options.wfB o = true := by
  rw [Options.docRangesB] at h
  rw [Options.wfB]
  simp only [Bool.and_eq_true, decide_eq_true_eq] at h ⊢
  obtain ⟨⟨⟨hbl, htm⟩, hts⟩, hws⟩ := h
  refine ⟨⟨⟨?_, ?_⟩, hts⟩, ?_⟩
  · cases hb : o.blksize with
    | none => simp
    | some x =>
      rw [hb] at hbl
      simp only [Bool.and_eq_true, decide_eq_true_eq] at hbl
      simp
      omega
  · cases ht : o.timeout with
    | none => simp
    | some x =>
      rw [ht] at htm
      simp only [Bool.and_eq_true, decide_eq_true_eq] at htm
      simp
      omega
  · cases hw : o.windowsize with
    | none => simp
    | some x =>
      rw [hw] at hws
      simp only [Bool.and_eq_true, decide_eq_true_eq] at hws
      simp
      omega

/-! ## The claims -/

/-- C1: the claim says the read-error path constructs
`Error(NotDefined, "Something broke: <reason>")` and best-effort sends it to
the peer before terminating.  On the code, the format string ends in an
explicit NUL octet, so the message always contains `0x00`, `put_string`
always rejects it, and the engine terminates *without ever sending an Error
packet*: serialization fails for every reason text, and the send trace of
the read-failure path is empty. -/
theorem c1_read_error_never_sends (bs bn : Nat) (msg : List Nat)
    (reads : List ReadEvent) (recvs : List RecvEvent) :
    (∃ e, Packet.write
        (.Error .NotDefined (strBytes "Something broke: " ++ msg ++ [0]))
        (List.replicate (4 + bs) 0) = .error (.WriteFailure e)) ∧
    sendLoop bs bn (.readFail msg :: reads) recvs = ([], .readFailed) :=
  ⟨errWrite_fails msg bs, sendLoop_readFail bs bn msg reads recvs⟩

/-- C2: after sending a DATA block, a receive stream of consecutive
timeouts makes the engine retransmit the same datagram on each of the first
eight timeouts and abort on the next, with no further packet: the complete
trace for the block is exactly nine copies of the datagram.  With at most
eight timeouts followed by the matching ACK the engine instead retransmits
once per timeout and proceeds. -/
theorem c2_timeout_retransmission (bs bn : Nat) (c : List Nat)
    (rs : List ReadEvent) (recvs1 : List RecvEvent)
    (hbs : 4 ≤ bs) (hbn : bn ≤ 65535) :
    sendLoop bs bn (.chunk c :: rs) (List.replicate 9 .timedOut ++ recvs1) =
      (List.replicate 9 (dataHeader bn ++ c), .aborted) ∧
    (∀ k, k ≤ 8 →
      recvLoop bs (dataHeader bn ++ c) bn 0
          (List.replicate k .timedOut ++ .datagram (ackBytes bn) :: recvs1) =
        (.acked, List.replicate k (dataHeader bn ++ c), recvs1)) := by
  constructor
  · rw [sendLoop_chunk]
    rw [recvLoop_all_timeouts 9 0 recvs1 (by omega) (by omega)]
    rw [show (8 : Nat) - 0 = 8 from rfl]
    rw [show (List.replicate 9 (dataHeader bn ++ c)) =
      (dataHeader bn ++ c) :: List.replicate 8 (dataHeader bn ++ c) from rfl]
  · intro k hk
    rw [recvLoop_timeouts_then k 0 _ (by omega)]
    rw [recvLoop_ack_match (parse_ackBytes hbs hbn)]
    simp

/-- C2 witness: a concrete all-timeout run aborts after nine sends, and a
concrete run with two timeouts then the matching ACK retransmits twice. -/
theorem c2_witness :
    4 ≤ 8 ∧ 1 ≤ 65535 ∧
    (sendLoop 8 1 (.chunk [7] :: []) (List.replicate 9 .timedOut ++ []) =
      (List.replicate 9 (dataHeader 1 ++ [7]), .aborted) ∧
    (∀ k, k ≤ 8 →
      recvLoop 8 (dataHeader 1 ++ [7]) 1 0
          (List.replicate k .timedOut ++ .datagram (ackBytes 1) :: []) =
        (.acked, List.replicate k (dataHeader 1 ++ [7]), []))) :=
  ⟨by decide, by decide,
    c2_timeout_retransmission 8 1 [7] [] [] (by decide) (by decide)⟩

/-- C3: for every valid packet (ASCII zero-free strings, `u16` block
numbers, option slots in their integer types) and every buffer into which
the write succeeds, parsing exactly the written octets returns a packet
structurally equal to the original; the emitted transfer-mode token is
lowercase and mode parsing is case-insensitive, so the mode also survives
the round trip. -/
theorem c3_packet_roundtrip (p : Packet) (buffer buf1 : List Nat) (n : Nat)
    (hwf : Packet.wfB p = true) (hw : Packet.write p buffer = .ok (buf1, n)) :
    Packet.parse (buf1.take n) = .ok p := by
  rw [packetWrite_inv hw]
  exact packetParse_packetBytes p hwf

/-- C3 witness: a concrete ACK packet written into a five-octet buffer
round-trips. -/
theorem c3_witness :
    Packet.wfB (.Ack 7) = true ∧
    Packet.write (.Ack 7) [9, 9, 9, 9, 9] = .ok ([0, 4, 0, 7, 9], 4) ∧
    Packet.parse (([0, 4, 0, 7, 9] : List Nat).take 4) = .ok (.Ack 7) :=
  ⟨by decide, by decide,
    c3_packet_roundtrip (.Ack 7) [9, 9, 9, 9, 9] [0, 4, 0, 7, 9] 4
      (by decide) (by decide)⟩

/-- C6: `put_string` checks in order: a non-ASCII octet gives
`StringNotASCII`; then an embedded zero octet gives `StringContainsNull`;
then `pos + len(s) ≥ buf.len()` gives `NotEnoughSpace`, and that condition
is equivalent to the remaining space being at most `len(s)`; otherwise the
octets of `s` and one terminating zero are written at the cursor, which
advances by `len(s) + 1`. -/
theorem c6_put_string_semantics (w : PacketWriter) (s : List Nat) :
    ((∃ b ∈ s, 128 ≤ b) → w.put_string s = (.error .StringNotASCII, w)) ∧
    ((∀ b ∈ s, b < 128) → 0 ∈ s →
      w.put_string s = (.error .StringContainsNull, w)) ∧
    ((∀ b ∈ s, b < 128) → 0 ∉ s → w.pos + s.length ≥ w.buf.length →
      w.put_string s = (.error .NotEnoughSpace, w)) ∧
    (w.pos + s.length ≥ w.buf.length ↔ w.rem ≤ s.length) ∧
    ((∀ b ∈ s, b < 128) → 0 ∉ s → w.pos + s.length < w.buf.length →
      w.put_string s =
        (.ok (), ⟨writeAt w.buf w.pos (s ++ [0]), w.pos + s.length + 1⟩)) := by
  refine ⟨?_, ?_, ?_, ?_, ?_⟩
  · rintro ⟨b, hb, hb128⟩
    rw [PacketWriter.put_string, if_neg]
    simp only [List.all_eq_true, decide_eq_true_eq, not_forall]
    exact ⟨b, hb, by omega⟩
  · intro hascii hmem
    rw [PacketWriter.put_string,
      if_pos (by simp only [List.all_eq_true, decide_eq_true_eq]; exact hascii),
      if_pos (by simp [List.contains]; exact hmem)]
  · intro hascii hmem hsp
    rw [PacketWriter.put_string,
      if_pos (by simp only [List.all_eq_true, decide_eq_true_eq]; exact hascii),
      if_neg (by simp [List.contains]; exact hmem), if_pos hsp]
  · rw [PacketWriter.rem]
    omega
  · intro hascii hmem hlt
    rw [PacketWriter.put_string,
      if_pos (by simp only [List.all_eq_true, decide_eq_true_eq]; exact hascii),
      if_neg (by simp [List.contains]; exact hmem), if_neg (by omega)]

/-- C6 witness: the semantics at a concrete writer and string. -/
theorem c6_witness :
    ((∃ b ∈ strBytes "foo", 128 ≤ b) →
      PacketWriter.put_string ⟨[0, 0, 0, 0, 0], 0⟩ (strBytes "foo") =
        (.error .StringNotASCII, ⟨[0, 0, 0, 0, 0], 0⟩)) ∧
    ((∀ b ∈ strBytes "foo", b < 128) → 0 ∈ strBytes "foo" →
      PacketWriter.put_string ⟨[0, 0, 0, 0, 0], 0⟩ (strBytes "foo") =
        (.error .StringContainsNull, ⟨[0, 0, 0, 0, 0], 0⟩)) ∧
    ((∀ b ∈ strBytes "foo", b < 128) → 0 ∉ strBytes "foo" →
      0 + (strBytes "foo").length ≥ ([0, 0, 0, 0, 0] : List Nat).length →
      PacketWriter.put_string ⟨[0, 0, 0, 0, 0], 0⟩ (strBytes "foo") =
        (.error .NotEnoughSpace, ⟨[0, 0, 0, 0, 0], 0⟩)) ∧
    (0 + (strBytes "foo").length ≥ ([0, 0, 0, 0, 0] : List Nat).length ↔
      PacketWriter.rem ⟨[0, 0, 0, 0, 0], 0⟩ ≤ (strBytes "foo").length) ∧
    ((∀ b ∈ strBytes "foo", b < 128) → 0 ∉ strBytes "foo" →
      0 + (strBytes "foo").length < ([0, 0, 0, 0, 0] : List Nat).length →
      PacketWriter.put_string ⟨[0, 0, 0, 0, 0], 0⟩ (strBytes "foo") =
        (.ok (), ⟨writeAt [0, 0, 0, 0, 0] 0 (strBytes "foo" ++ [0]),
          0 + (strBytes "foo").length + 1⟩)) :=
  c6_put_string_semantics ⟨[0, 0, 0, 0, 0], 0⟩ (strBytes "foo")

/-- C8: `take_u16` fails with `NotEnoughData` and leaves the cursor
unchanged when fewer than two octets remain, and otherwise consumes exactly
two octets big-endian; `take_string` fails with `StringNotTerminated` and
leaves the cursor unchanged when no zero octet remains, and otherwise
returns the octets before the first zero and advances the cursor just past
that zero. -/
theorem c8_reader_cursor (r : PacketReader) :
    (r.buf.length - r.pos < 2 → r.take_u16 = (.error .NotEnoughData, r)) ∧
    (∀ b0 b1 rest, r.buf.drop r.pos = b0 :: b1 :: rest →
      r.take_u16 = (.ok (256 * b0 + b1), ⟨r.buf, r.pos + 2⟩)) ∧
    ((∀ b ∈ r.buf.drop r.pos, b ≠ 0) →
      r.take_string = (.error .StringNotTerminated, r)) ∧
    (∀ s rest, (∀ b ∈ s, b ≠ 0) → r.buf.drop r.pos = s ++ 0 :: rest →
      r.take_string = (.ok (fromUtf8Lossy s), ⟨r.buf, r.pos + s.length + 1⟩)) := by
  refine ⟨?_, ?_, ?_, ?_⟩
  · intro h
    exact take_u16_fail h
  · intro b0 b1 rest h
    exact (take_u16_eq h).1
  · intro h
    exact take_string_fail h
  · intro s rest hs h
    exact (take_string_eq hs h).1

/-- C8 witness: the reader semantics at a concrete one-octet buffer. -/
theorem c8_witness :
    ((([4] : List Nat).length - 0 < 2 →
      PacketReader.take_u16 ⟨[4], 0⟩ = (.error .NotEnoughData, ⟨[4], 0⟩)) ∧
    (∀ b0 b1 rest, ([4] : List Nat).drop 0 = b0 :: b1 :: rest →
      PacketReader.take_u16 ⟨[4], 0⟩ = (.ok (256 * b0 + b1), ⟨[4], 0 + 2⟩)) ∧
    ((∀ b ∈ ([4] : List Nat).drop 0, b ≠ 0) →
      PacketReader.take_string ⟨[4], 0⟩ = (.error .StringNotTerminated, ⟨[4], 0⟩)) ∧
    (∀ s rest, (∀ b ∈ s, b ≠ 0) → ([4] : List Nat).drop 0 = s ++ 0 :: rest →
      PacketReader.take_string ⟨[4], 0⟩ =
        (.ok (fromUtf8Lossy s), ⟨[4], 0 + s.length + 1⟩))) :=
  c8_reader_cursor ⟨[4], 0⟩

/-- C10: `Options::parse` enforces only the integer-type range of each
option, not the documented TFTP range: every decimal `u16` value is
accepted for `blksize` — including values below 8 and above 65464 — and
`timeout = 0` and `windowsize = 0` are accepted even though their
documented ranges start at 1; only type overflow (65536 for a `u16`) is
rejected. -/
theorem c10_no_range_enforcement (v : Nat) (hv : v ≤ 65535) :
    Options.parse (strBytes "blksize" ++ [0] ++ natToDec v ++ [0]) =
      .ok ⟨some v, none, none, none⟩ ∧
    Options.parse (strBytes "timeout" ++ [0] ++ strBytes "0" ++ [0]) =
      .ok ⟨none, some 0, none, none⟩ ∧
    Options.parse (strBytes "windowsize" ++ [0] ++ strBytes "0" ++ [0]) =
      .ok ⟨none, none, none, some 0⟩ ∧
    Options.parse (strBytes "blksize" ++ [0] ++ strBytes "65536" ++ [0]) =
      .error (invalidValueMsg (strBytes "blksize") (strBytes "65536")
        .posOverflow) := by
  refine ⟨?_, by decide, by decide, by decide⟩
  have hshape : strBytes "blksize" ++ [0] ++ natToDec v ++ [0] =
      pairsBytes [(strBytes "blksize", natToDec v)] := by
    rw [pairsBytes, pairsBytes]
    simp
  rw [hshape]
  rw [optionsParse_pairsBytes _ ?_]
  · rw [applyPairs, lossy_blksizeTok, fromUtf8Lossy_natToDec,
      parse_option_blksize Options.new v hv]
    rfl
  · intro q hq
    simp only [List.mem_singleton] at hq
    subst hq
    exact ⟨(by decide : ∀ b ∈ strBytes "blksize", b ≠ 0), natToDec_no_zero v⟩

/-- C10 witness: `blksize = 7` — below the documented minimum of 8 — is
accepted, and the other conjuncts hold. -/
theorem c10_witness :
    7 ≤ 65535 ∧
    (Options.parse (strBytes "blksize" ++ [0] ++ natToDec 7 ++ [0]) =
      .ok ⟨some 7, none, none, none⟩ ∧
    Options.parse (strBytes "timeout" ++ [0] ++ strBytes "0" ++ [0]) =
      .ok ⟨none, some 0, none, none⟩ ∧
    Options.parse (strBytes "windowsize" ++ [0] ++ strBytes "0" ++ [0]) =
      .ok ⟨none, none, none, some 0⟩ ∧
    Options.parse (strBytes "blksize" ++ [0] ++ strBytes "65536" ++ [0]) =
      .error (invalidValueMsg (strBytes "blksize") (strBytes "65536")
        .posOverflow)) :=
  ⟨by decide, c10_no_range_enforcement 7 (by decide)⟩

/-- C5: in the send loop, a datagram parsing to the matching `ACK` is
exactly what exits the inner receive loop and advances to the next block; a
stale `ACK` is ignored; a peer `Error` packet ends the transfer with no
further sends; datagrams of any other shape, and datagrams that do not
parse, are ignored; and a transfer over a file read in `blksize` chunks
ends normally exactly after the short final block — the block strictly
shorter than `blksize`, which is the empty block when the file length is an
exact multiple of `blksize` — is acknowledged. -/
theorem c5_ack_gated_progress (bs : Nat) (hbs : 4 ≤ bs) :
    (∀ (sb : List Nat) (bn t : Nat) (rest : List RecvEvent), bn ≤ 65535 →
      recvLoop bs sb bn t (.datagram (ackBytes bn) :: rest) = (.acked, [], rest)) ∧
    (∀ (sb : List Nat) (bn t b : Nat) (rest : List RecvEvent),
      b ≤ 65535 → b ≠ bn →
      recvLoop bs sb bn t (.datagram (ackBytes b) :: rest) =
        recvLoop bs sb bn t rest) ∧
    (∀ (d c : List Nat) (bn : Nat) (rs : List ReadEvent) (code : ErrorCode)
        (msg : List Nat) (recvs1 : List RecvEvent),
      Packet.parse (d.take bs) = .ok (.Error code msg) →
      sendLoop bs bn (.chunk c :: rs) (.datagram d :: recvs1) =
        ([dataHeader bn ++ c], .peerError code msg)) ∧
    (∀ (sb d : List Nat) (bn t : Nat) (rest : List RecvEvent),
      IgnoredParse (Packet.parse (d.take bs)) →
      recvLoop bs sb bn t (.datagram d :: rest) = recvLoop bs sb bn t rest) ∧
    (∀ (file : List Nat) (extra : List RecvEvent),
      (fileChunks bs file).length ≤ 65535 →
      ∃ init last, fileChunks bs file = init ++ [last] ∧
        (∀ ch ∈ init, ch.length = bs) ∧ last.length < bs ∧
        (bs ∣ file.length → last = []) ∧
        sendLoop bs 1 ((fileChunks bs file).map .chunk)
            (ackTrain 1 (fileChunks bs file).length ++ extra) =
          (sendsOf 1 (fileChunks bs file), .completed)) := by
  refine ⟨?_, ?_, ?_, ?_, ?_⟩
  · intro sb bn t rest hbn
    exact recvLoop_ack_match (parse_ackBytes hbs hbn)
  · intro sb bn t b rest hb hne
    exact recvLoop_ack_stale (parse_ackBytes hbs hb) hne
  · intro d c bn rs code msg recvs1 hp
    rw [sendLoop_chunk, recvLoop_peer_error hp]
  · intro sb d bn t rest h
    exact recvLoop_ignored h
  · intro file extra hcount
    obtain ⟨init, last, heq, hinit, hlast, hdvd⟩ :=
      fileChunks_spec bs file (by omega)
    refine ⟨init, last, heq, hinit, hlast, hdvd, ?_⟩
    rw [heq] at hcount ⊢
    simp only [List.length_append, List.length_cons, List.length_nil] at hcount ⊢
    exact sendLoop_happy hbs init last 1 extra hinit hlast (by omega)

/-- C5 witness: the loop behavior at `blksize = 4` with a five-octet file:
two full-size reasoning steps through the theorem at concrete inputs. -/
theorem c5_witness :
    4 ≤ 4 ∧
    ((∀ (sb : List Nat) (bn t : Nat) (rest : List RecvEvent), bn ≤ 65535 →
      recvLoop 4 sb bn t (.datagram (ackBytes bn) :: rest) = (.acked, [], rest)) ∧
    (∀ (sb : List Nat) (bn t b : Nat) (rest : List RecvEvent),
      b ≤ 65535 → b ≠ bn →
      recvLoop 4 sb bn t (.datagram (ackBytes b) :: rest) =
        recvLoop 4 sb bn t rest) ∧
    (∀ (d c : List Nat) (bn : Nat) (rs : List ReadEvent) (code : ErrorCode)
        (msg : List Nat) (recvs1 : List RecvEvent),
      Packet.parse (d.take 4) = .ok (.Error code msg) →
      sendLoop 4 bn (.chunk c :: rs) (.datagram d :: recvs1) =
        ([dataHeader bn ++ c], .peerError code msg)) ∧
    (∀ (sb d : List Nat) (bn t : Nat) (rest : List RecvEvent),
      IgnoredParse (Packet.parse (d.take 4)) →
      recvLoop 4 sb bn t (.datagram d :: rest) = recvLoop 4 sb bn t rest) ∧
    (∀ (file : List Nat) (extra : List RecvEvent),
      (fileChunks 4 file).length ≤ 65535 →
      ∃ init last, fileChunks 4 file = init ++ [last] ∧
        (∀ ch ∈ init, ch.length = 4) ∧ last.length < 4 ∧
        ((4 : Nat) ∣ file.length → last = []) ∧
        sendLoop 4 1 ((fileChunks 4 file).map .chunk)
            (ackTrain 1 (fileChunks 4 file).length ++ extra) =
          (sendsOf 1 (fileChunks 4 file), .completed))) :=
  ⟨by decide, c5_ack_gated_progress 4 (by decide)⟩

/-- C7: `Options::parse` produces exactly the specified error strings — an
unterminated final name token, a terminated name with an unterminated
value, and a terminated name with no following token each give their own
message embedding the offending (lossily decoded) tokens; an empty or
non-numeric value for a recognized option gives a message embedding the
option name and the Debug-quoted value; option names match
case-insensitively; and an unrecognized name/value pair is dropped
silently, leaving the parse of the remaining well-formed pairs — in
particular recognized options beside an unknown one are kept. -/
theorem c7_options_parse_errors :
    (∀ t : List Nat, t ≠ [] → (∀ b ∈ t, b ≠ 0) →
      Options.parse t = .error (strBytes "Option " ++ fromUtf8Lossy t ++
        strBytes " is unterminated")) ∧
    (∀ nm v : List Nat, (∀ b ∈ nm, b ≠ 0) → v ≠ [] → (∀ b ∈ v, b ≠ 0) →
      Options.parse (nm ++ [0] ++ v) =
        .error (strBytes "Option " ++ fromUtf8Lossy nm ++
          strBytes " has unterminated value " ++ fromUtf8Lossy v)) ∧
    (∀ nm : List Nat, (∀ b ∈ nm, b ≠ 0) →
      Options.parse (nm ++ [0]) =
        .error (strBytes "Option " ++ fromUtf8Lossy nm ++
          strBytes " has no corresponding value")) ∧
    (Options.parse (strBytes "blksize" ++ [0, 0]) =
      .error (strBytes "Invalid blksize value \"\": cannot parse integer from empty string")) ∧
    (Options.parse (strBytes "blksize" ++ [0] ++ strBytes "foo" ++ [0]) =
      .error (strBytes "Invalid blksize value \"foo\": invalid digit found in string")) ∧
    (∀ nm : List Nat, (∀ b ∈ nm, b < 128) →
      asciiLowercase nm = strBytes "blksize" →
      Options.parse (nm ++ [0] ++ strBytes "512" ++ [0]) =
        .ok ⟨some 512, none, none, none⟩) ∧
    (∀ nm v : List Nat, (∀ b ∈ nm, b < 128) → (∀ b ∈ nm, b ≠ 0) →
      (∀ b ∈ v, b ≠ 0) →
      asciiLowercase nm ≠ strBytes "blksize" →
      asciiLowercase nm ≠ strBytes "timeout" →
      asciiLowercase nm ≠ strBytes "tsize" →
      asciiLowercase nm ≠ strBytes "windowsize" →
      ∀ ps : List (List Nat × List Nat),
        (∀ q ∈ ps, (∀ b ∈ q.1, b ≠ 0) ∧ (∀ b ∈ q.2, b ≠ 0)) →
        Options.parse (nm ++ [0] ++ v ++ [0] ++ pairsBytes ps) =
          Options.parse (pairsBytes ps)) ∧
    (Options.parse (strBytes "UNKNOWN" ++ [0] ++ strBytes "x" ++ [0] ++
        strBytes "blksize" ++ [0] ++ strBytes "512" ++ [0]) =
      .ok ⟨some 512, none, none, none⟩) := by
  refine ⟨?_, ?_, ?_, by decide, by decide, ?_, ?_, by decide⟩
  · intro t htne htz
    rw [Options.parse, optionsParseGo]
    rw [optIterNext_unterminated htz htne (List.drop_zero t)]
  · intro nm v hnz hvne hvz
    rw [Options.parse, optionsParseGo]
    have hshape : (nm ++ [0] ++ v).drop 0 = nm ++ 0 :: v := by
      rw [List.drop_zero]
      simp
    obtain ⟨hstep1, hdrop1⟩ := optIterNext_terminated hnz hshape
    rw [hstep1]
    dsimp only
    rw [optIterNext_unterminated hvz hvne hdrop1]
  · intro nm hnz
    rw [Options.parse, optionsParseGo]
    have hshape : (nm ++ [0]).drop 0 = nm ++ 0 :: [] := by
      rw [List.drop_zero]
    obtain ⟨hstep1, hdrop1⟩ := optIterNext_terminated hnz hshape
    rw [hstep1]
    dsimp only
    rw [optIterNext_end hdrop1]
  · intro nm ha hlower
    have hnz : ∀ b ∈ nm, b ≠ 0 := by
      intro b hb hb0
      subst hb0
      have hmem : lowerByte 0 ∈ asciiLowercase nm := List.mem_map_of_mem _ hb
      rw [hlower] at hmem
      exact absurd hmem (by decide)
    have hshape : nm ++ [0] ++ strBytes "512" ++ [0] =
        pairsBytes [(nm, strBytes "512")] := by
      rw [pairsBytes, pairsBytes]
      simp
    rw [hshape, optionsParse_pairsBytes _ ?_]
    · rw [applyPairs, fromUtf8Lossy_ascii nm ha,
        fromUtf8Lossy_ascii (strBytes "512") (by decide)]
      rw [Options.parse_option]
      rw [hlower, if_pos rfl]
      rw [show parseUInt 65535 (strBytes "512") = .ok 512 from by decide]
      rfl
    · intro q hq
      simp only [List.mem_singleton] at hq
      subst hq
      exact ⟨hnz, (by decide : ∀ b ∈ strBytes "512", b ≠ 0)⟩
  · intro nm v ha hnz hvz h1 h2 h3 h4 ps hps
    have hshape : nm ++ [0] ++ v ++ [0] ++ pairsBytes ps =
        pairsBytes ((nm, v) :: ps) := by
      rw [pairsBytes]
    rw [hshape]
    rw [optionsParse_pairsBytes _ ?_, optionsParse_pairsBytes _ hps]
    · rw [applyPairs, fromUtf8Lossy_ascii nm ha]
      rw [Options.parse_option]
      rw [if_neg h1, if_neg h2, if_neg h3, if_neg h4]
    · intro q hq
      rcases List.mem_cons.mp hq with hq | hq
      · subst hq
        exact ⟨hnz, hvz⟩
      · exact hps q hq

/-- C7 witness: instances of each error shape at concrete inputs. -/
theorem c7_witness :
    Options.parse (strBytes "blksize") =
      .error (strBytes "Option " ++ fromUtf8Lossy (strBytes "blksize") ++
        strBytes " is unterminated") ∧
    Options.parse (strBytes "blksize" ++ [0] ++ strBytes "67") =
      .error (strBytes "Option " ++ fromUtf8Lossy (strBytes "blksize") ++
        strBytes " has unterminated value " ++ fromUtf8Lossy (strBytes "67")) ∧
    Options.parse (strBytes "foo" ++ [0]) =
      .error (strBytes "Option " ++ fromUtf8Lossy (strBytes "foo") ++
        strBytes " has no corresponding value") ∧
    Options.parse (strBytes "BlkSize" ++ [0] ++ strBytes "512" ++ [0]) =
      .ok ⟨some 512, none, none, none⟩ :=
  ⟨c7_options_parse_errors.1 (strBytes "blksize") (by decide) (by decide),
    c7_options_parse_errors.2.1 (strBytes "blksize") (strBytes "67")
      (by decide) (by decide) (by decide),
    c7_options_parse_errors.2.2.1 (strBytes "foo") (by decide),
    c7_options_parse_errors.2.2.2.2.2.1 (strBytes "BlkSize") (by decide) (by decide)⟩

/-- C9: for every `Options` value whose present slots lie in the documented
ranges, emitting it (present options as name/value token pairs, in the
canonical order blksize, timeout, tsize, windowsize, values in decimal) and
parsing the emitted octets yields the same value; emitting an all-absent
`Options` writes nothing. -/
theorem c9_options_roundtrip (o : Options) (buffer : List Nat) (u : Unit)
    (w1 : PacketWriter) (hrange : Options.docRangesB o = true)
    (hw : Options.write o ⟨buffer, 0⟩ = (.ok u, w1)) :
    Options.parse (w1.buf.take w1.pos) = .ok o ∧
    (∀ w : PacketWriter, Options.write Options.new w = (.ok (), w)) := by
  constructor
  · have hf := optionsWrite_inv hw (flatW_init buffer)
    rw [hf.htake]
    rw [List.nil_append]
    exact optionsParse_optionsBytes o (docRanges_wf hrange)
  · intro w
    rfl

/-- C9 witness: a concrete `Options` with only `tsize = 0` set round-trips
through a nine-octet buffer. -/
theorem c9_witness :
    Options.docRangesB ⟨none, none, some 0, none⟩ = true ∧
    Options.write ⟨none, none, some 0, none⟩ ⟨[9, 9, 9, 9, 9, 9, 9, 9, 9], 0⟩ =
      (.ok (), ⟨[116, 115, 105, 122, 101, 0, 48, 0, 9], 8⟩) ∧
    (Options.parse (([116, 115, 105, 122, 101, 0, 48, 0, 9] : List Nat).take 8) =
        .ok ⟨none, none, some 0, none⟩ ∧
      (∀ w : PacketWriter, Options.write Options.new w = (.ok (), w))) :=
  ⟨by decide, by decide,
    c9_options_roundtrip ⟨none, none, some 0, none⟩ [9, 9, 9, 9, 9, 9, 9, 9, 9] ()
      ⟨[116, 115, 105, 122, 101, 0, 48, 0, 9], 8⟩ (by decide) (by decide)⟩

/-- C4: the engine's effective options are: blksize is the client's request
exactly when that request is at least 512 and 512 otherwise; the timeout is
the client's request exactly when it is at least 1 second and the 8-second
default otherwise; a client `tsize = 0` is answered with the file's byte
length while any other client tsize is ignored; and `send_to` sends an OACK
first if and only if at least one option was accepted, the OACK carrying
exactly the accepted subset (`options_out`). -/
theorem c4_effective_options (options : Options) (len : Option Nat)
    (hwf : Options.wfB options = true) (hlen : len.getD 0 < 2 ^ 64) :
    (∀ b, options.blksize = some b → 512 ≤ b →
      (computeEffective options len).blksize = b ∧
      (computeEffective options len).options_out.blksize = some b) ∧
    (∀ b, options.blksize = some b → b < 512 →
      (computeEffective options len).blksize = 512 ∧
      (computeEffective options len).options_out.blksize = none) ∧
    (options.blksize = none →
      (computeEffective options len).blksize = 512 ∧
      (computeEffective options len).options_out.blksize = none) ∧
    (∀ t, options.timeout = some t → 1 ≤ t →
      (computeEffective options len).timeoutSecs = t ∧
      (computeEffective options len).options_out.timeout = some t) ∧
    (options.timeout = some 0 →
      (computeEffective options len).timeoutSecs = 8 ∧
      (computeEffective options len).options_out.timeout = none) ∧
    (options.timeout = none →
      (computeEffective options len).timeoutSecs = 8 ∧
      (computeEffective options len).options_out.timeout = none) ∧
    (options.tsize = some 0 →
      (computeEffective options len).options_out.tsize = len) ∧
    (∀ t, options.tsize = some t → t ≠ 0 →
      (computeEffective options len).options_out.tsize = none) ∧
    (options.tsize = none →
      (computeEffective options len).options_out.tsize = none) ∧
    (∀ reads recvs, (computeEffective options len).options_out.is_set = true →
      ∃ buf1,
        Packet.write (.OAck (computeEffective options len).options_out)
            (List.replicate (4 + (computeEffective options len).blksize) 0) =
          .ok (buf1,
            2 + (optionsBytes (computeEffective options len).options_out).length) ∧
        sendTo options len reads recvs =
          (buf1.take
              (2 + (optionsBytes (computeEffective options len).options_out).length) ::
            (sendLoop (computeEffective options len).blksize 1 reads recvs).1,
            (sendLoop (computeEffective options len).blksize 1 reads recvs).2) ∧
        Packet.parse (buf1.take
            (2 + (optionsBytes (computeEffective options len).options_out).length)) =
          .ok (.OAck (computeEffective options len).options_out)) ∧
    (∀ reads recvs, (computeEffective options len).options_out.is_set = false →
      sendTo options len reads recvs =
        sendLoop (computeEffective options len).blksize 1 reads recvs) := by
  refine ⟨?_, ?_, ?_, ?_, ?_, ?_, ?_, ?_, ?_, ?_, ?_⟩
  · intro b hb h512
    rw [computeEffective_blksize, computeEffective_blksize_out, hb]
    dsimp only
    rw [if_pos h512, if_pos h512]
    exact ⟨rfl, rfl⟩
  · intro b hb h512
    rw [computeEffective_blksize, computeEffective_blksize_out, hb]
    dsimp only
    rw [if_neg (by omega), if_neg (by omega)]
    exact ⟨rfl, rfl⟩
  · intro hb
    rw [computeEffective_blksize, computeEffective_blksize_out, hb]
    exact ⟨rfl, rfl⟩
  · intro t ht h1
    rw [computeEffective_timeout, computeEffective_timeout_out, ht]
    dsimp only
    rw [if_pos h1, if_pos h1]
    exact ⟨rfl, rfl⟩
  · intro ht
    rw [computeEffective_timeout, computeEffective_timeout_out, ht]
    dsimp only
    rw [if_neg (by omega), if_neg (by omega)]
    exact ⟨rfl, rfl⟩
  · intro ht
    rw [computeEffective_timeout, computeEffective_timeout_out, ht]
    exact ⟨rfl, rfl⟩
  · intro ht
    rw [computeEffective_tsize_out, ht]
  · intro t ht htne
    rw [computeEffective_tsize_out, ht]
    cases t with
    | zero => omega
    | succ u => rfl
  · intro ht
    rw [computeEffective_tsize_out, ht]
  · intro reads recvs hset
    obtain ⟨buf1, hwrt, htk⟩ := oackWrite_ok
      (computeEffective options len).options_out
      (computeEffective options len).blksize
      (computeEffective_out_wf options len hwf hlen)
      (computeEffective_windowsize_out options len)
      (computeEffective_blksize_ge options len)
    refine ⟨buf1, hwrt, ?_, ?_⟩
    · rw [sendTo]
      rw [if_pos hset, hwrt]
    · rw [htk]
      apply packetParse_packetBytes
      rw [Packet.wfB]
      exact computeEffective_out_wf options len hwf hlen
  · intro reads recvs hset
    rw [sendTo]
    rw [if_neg (by rw [hset]; simp)]

/-- C4 witness: for the concrete request `blksize = 1024, timeout = 0,
tsize = 0` against a 5-byte file, the effective blksize is the honored 1024,
the zero timeout falls back to the 8-second default without being echoed,
and the tsize reply carries the length 5. -/
theorem c4_witness :
    Options.wfB ⟨some 1024, some 0, some 0, none⟩ = true ∧
    (some 5 : Option Nat).getD 0 < 2 ^ 64 ∧
    ((∀ b, (some 1024 : Option Nat) = some b → 512 ≤ b →
      (computeEffective ⟨some 1024, some 0, some 0, none⟩ (some 5)).blksize = b ∧
      (computeEffective ⟨some 1024, some 0, some 0, none⟩
          (some 5)).options_out.blksize = some b) ∧
    (∀ b, (some 1024 : Option Nat) = some b → b < 512 →
      (computeEffective ⟨some 1024, some 0, some 0, none⟩ (some 5)).blksize = 512 ∧
      (computeEffective ⟨some 1024, some 0, some 0, none⟩
          (some 5)).options_out.blksize = none) ∧
    ((some 1024 : Option Nat) = none →
      (computeEffective ⟨some 1024, some 0, some 0, none⟩ (some 5)).blksize = 512 ∧
      (computeEffective ⟨some 1024, some 0, some 0, none⟩
          (some 5)).options_out.blksize = none) ∧
    (∀ t, (some 0 : Option Nat) = some t → 1 ≤ t →
      (computeEffective ⟨some 1024, some 0, some 0, none⟩ (some 5)).timeoutSecs = t ∧
      (computeEffective ⟨some 1024, some 0, some 0, none⟩
          (some 5)).options_out.timeout = some t) ∧
    ((some 0 : Option Nat) = some 0 →
      (computeEffective ⟨some 1024, some 0, some 0, none⟩ (some 5)).timeoutSecs = 8 ∧
      (computeEffective ⟨some 1024, some 0, some 0, none⟩
          (some 5)).options_out.timeout = none) ∧
    ((some 0 : Option Nat) = none →
      (computeEffective ⟨some 1024, some 0, some 0, none⟩ (some 5)).timeoutSecs = 8 ∧
      (computeEffective ⟨some 1024, some 0, some 0, none⟩
          (some 5)).options_out.timeout = none) ∧
    ((some 0 : Option Nat) = some 0 →
      (computeEffective ⟨some 1024, some 0, some 0, none⟩
          (some 5)).options_out.tsize = some 5) ∧
    (∀ t, (some 0 : Option Nat) = some t → t ≠ 0 →
      (computeEffective ⟨some 1024, some 0, some 0, none⟩
          (some 5)).options_out.tsize = none) ∧
    ((some 0 : Option Nat) = none →
      (computeEffective ⟨some 1024, some 0, some 0, none⟩
          (some 5)).options_out.tsize = none) ∧
    (∀ reads recvs,
      (computeEffective ⟨some 1024, some 0, some 0, none⟩
          (some 5)).options_out.is_set = true →
      ∃ buf1,
        Packet.write
            (.OAck (computeEffective ⟨some 1024, some 0, some 0, none⟩
              (some 5)).options_out)
            (List.replicate
              (4 + (computeEffective ⟨some 1024, some 0, some 0, none⟩
                (some 5)).blksize) 0) =
          .ok (buf1,
            2 + (optionsBytes (computeEffective ⟨some 1024, some 0, some 0, none⟩
              (some 5)).options_out).length) ∧
        sendTo ⟨some 1024, some 0, some 0, none⟩ (some 5) reads recvs =
          (buf1.take
              (2 + (optionsBytes (computeEffective ⟨some 1024, some 0, some 0, none⟩
                (some 5)).options_out).length) ::
            (sendLoop (computeEffective ⟨some 1024, some 0, some 0, none⟩
              (some 5)).blksize 1 reads recvs).1,
            (sendLoop (computeEffective ⟨some 1024, some 0, some 0, none⟩
              (some 5)).blksize 1 reads recvs).2) ∧
        Packet.parse (buf1.take
            (2 + (optionsBytes (computeEffective ⟨some 1024, some 0, some 0, none⟩
              (some 5)).options_out).length)) =
          .ok (.OAck (computeEffective ⟨some 1024, some 0, some 0, none⟩
            (some 5)).options_out)) ∧
    (∀ reads recvs,
      (computeEffective ⟨some 1024, some 0, some 0, none⟩
          (some 5)).options_out.is_set = false →
      sendTo ⟨some 1024, some 0, some 0, none⟩ (some 5) reads recvs =
        sendLoop (computeEffective ⟨some 1024, some 0, some 0, none⟩
          (some 5)).blksize 1 reads recvs)) :=
  ⟨by decide, by decide,
    c4_effective_options ⟨some 1024, some 0, some 0, none⟩ (some 5)
      (by decide) (by decide)⟩
